import Mathlib

/-!
Shallow embedding of the checklist-report pipeline (report.py, datemodel.py,
test.py): the line classifier, the date resolver, the per-line task parser,
the hierarchy builder, the table-row renderer and the tag extractor, together
with theorems settling the specification claims about them.

Strings are modelled as `List Char` (Python `str`), dates as proleptic
Gregorian triples (Python `datetime.date`), raised exceptions as the
`Except PyError` monad.  Character classes (`\s`, `\d`) are modelled over
their ASCII range, which covers every character the note grammar produces.
-/

namespace Report

/-- Python `\s` / `str.isspace` on the ASCII range. -/
def isSpace (c : Char) : Bool :=
  c = ' ' || c = '\t' || c = '\n' || c = '\r' || c = '\x0b' || c = '\x0c'

/-- Python `\d` on the ASCII range. -/
def isDigit (c : Char) : Bool :=
  '0' ≤ c && c ≤ '9'

/-- Numeric value of a decimal digit character. -/
def digitVal (c : Char) : Nat := c.toNat - 48

/-- Value of a two-digit string, e.g. the month or day field of `MM-DD`. -/
def mval (a b : Char) : Nat := 10 * digitVal a + digitVal b

/-- Python `datetime.date`: a validated Gregorian (year, month, day) triple. -/
structure PyDate where
  year : Nat
  month : Nat
  day : Nat
deriving DecidableEq, Repr

/-- `datetime.date` comparison `d1 <= d2` (lexicographic on y, m, d). -/
def dateLE (a b : PyDate) : Bool :=
  a.year < b.year ||
    (a.year = b.year &&
      (a.month < b.month || (a.month = b.month && a.day ≤ b.day)))

/-- Gregorian leap-year rule used by `datetime.date`. -/
def isLeap (y : Nat) : Bool :=
  (y % 4 = 0 && y % 100 ≠ 0) || y % 400 = 0

/-- Number of days of month `m` in year `y` (`calendar`-module rule). -/
def daysInMonth (y m : Nat) : Nat :=
  if m = 2 then (if isLeap y then 29 else 28)
  else if m = 4 || m = 6 || m = 9 || m = 11 then 30
  else 31

/-- The triples accepted by the `datetime.date` constructor
(`MINYEAR = 1`, `MAXYEAR = 9999`, day within the month). -/
def isValidDate (y m d : Nat) : Bool :=
  1 ≤ y && y ≤ 9999 && 1 ≤ m && m ≤ 12 && 1 ≤ d && d ≤ daysInMonth y m

/-- The exceptions the pipeline can raise. -/
inductive PyError where
  /-- `ValueError`, from `int(...)`, tuple unpacking, or the `date` constructor. -/
  | valueError : PyError
  /-- `raise Exception(msg)` (the invalid-state-character raise in `parse_line`). -/
  | exception (msg : List Char) : PyError
  /-- `state_char` referenced while unbound (no state-pattern match on the line). -/
  | unboundLocal : PyError
  /-- `task_list[-1]` on an empty list in `format_tasks`. -/
  | indexError : PyError
deriving DecidableEq, Repr

/-- Python `s.split("-")`. -/
def splitOnDash : List Char → List (List Char)
  | [] => [[]]
  | c :: rest =>
    if c = '-' then [] :: splitOnDash rest
    else
      match splitOnDash rest with
      | h :: t => (c :: h) :: t
      | [] => [[c]]

/-- Python `int(s)` on the decimal-digit strings the date regexes capture;
`none` models the `ValueError` raised on anything else. -/
def pyInt (cs : List Char) : Option Nat :=
  if cs ≠ [] && cs.all isDigit then
    some (cs.foldl (fun a c => 10 * a + digitVal c) 0)
  else none

/-- `get_date` (report.py:120-130): resolve an optional `(YYYY-)MM-DD` fragment
against `today`, keeping only the last two components and preferring this
year's candidate when it is not in the future. -/
def get_date (today : PyDate) : Option (List Char) → Except PyError (Option PyDate)
  | none => Except.ok none
  | some s =>
    match (splitOnDash s).mapM pyInt with
    | none => Except.error PyError.valueError
    | some vals =>
      match vals.reverse with
      | day :: month :: _ =>
        if isValidDate today.year month day then
          let d : PyDate := ⟨today.year, month, day⟩
          if dateLE d today then Except.ok (some d)
          else if isValidDate (today.year - 1) month day then
            Except.ok (some ⟨today.year - 1, month, day⟩)
          else Except.error PyError.valueError
        else Except.error PyError.valueError
      | _ => Except.error PyError.valueError

/-- The date `get_date` produces for a valid month/day pair: this year's
occurrence when it is not after `today`, otherwise last year's. -/
def resolvePast (today : PyDate) (m d : Nat) : PyDate :=
  if dateLE ⟨today.year, m, d⟩ today then ⟨today.year, m, d⟩
  else ⟨today.year - 1, m, d⟩

deriving instance DecidableEq for Except

/-- Match a literal pattern at the head of a string, returning the remainder. -/
def chopLit : List Char → List Char → Option (List Char)
  | [], cs => some cs
  | _ :: _, [] => none
  | p :: ps, c :: cs => if c = p then chopLit ps cs else none

/-- Regex piece `\d{2}\-\d{2}` (capture group 3 of the date-marker patterns):
returns the five matched characters and the remainder. -/
def tryMMDD : List Char → Option (List Char × List Char)
  | a :: b :: c :: d :: e :: rest =>
    if isDigit a && isDigit b && c = '-' && isDigit d && isDigit e then
      some ([a, b, c, d, e], rest)
    else none
  | _ => none

/-- Regex piece `\d{4}\-` (the optional year group): returns the remainder. -/
def tryYear : List Char → Option (List Char)
  | a :: b :: c :: d :: e :: rest =>
    if isDigit a && isDigit b && isDigit c && isDigit d && e = '-' then some rest
    else none
  | _ => none

/-- Regex piece `(\d{4}\-)?(\d{2}\-\d{2})`: greedy optional year, then the
month-day group; returns (captured month-day group, remainder). -/
def dateCore (cs : List Char) : Option (List Char × List Char) :=
  match tryYear cs with
  | some r1 =>
    match tryMMDD r1 with
    | some p => some p
    | none => tryMMDD cs
  | none => tryMMDD cs

/-- Lazy continuation of `\s+?` before the date group: try the date here,
otherwise consume one more whitespace character. -/
def dateTail : List Char → Option (List Char × List Char)
  | [] => none
  | c :: rest =>
    match dateCore (c :: rest) with
    | some p => some p
    | none => if isSpace c then dateTail rest else none

/-- Regex piece `\s+?((\d{4}\-)?(\d{2}\-\d{2}))`: at least one whitespace
character, then the date group. -/
def wsDate : List Char → Option (List Char × List Char)
  | c :: rest => if isSpace c then dateTail rest else none
  | [] => none

/-- One date-marker pattern `G\s+?((\d{4}\-)?(\d{2}\-\d{2}))` anchored at the
head of the string, for glyph `G`; returns (month-day capture, remainder). -/
def markerMatch (g : Char) : List Char → Option (List Char × List Char)
  | c :: rest => if c = g then wsDate rest else none
  | [] => none

/-- The start-date glyph of the note grammar. -/
def glyphStart : Char := '🛫'

/-- The done-date glyph of the note grammar. -/
def glyphDone : Char := '✅'

/-- Body `\- \[(.)\] ` of the state pattern anchored at the head:
returns (captured state character, remainder). -/
def stateCore (cs : List Char) : Option (Char × List Char) :=
  match chopLit ['-', ' ', '['] cs with
  | none => none
  | some cs1 =>
    match cs1 with
    | [] => none
    | c :: cs2 =>
      if c = '\n' then none
      else
        match chopLit [']', ' '] cs2 with
        | none => none
        | some cs3 => some (c, cs3)

/-- State pattern `\t{,1}\- \[(.)\] ` anchored at the head (greedy optional
tab, with the regex backtrack into the tabless alternative). -/
def stateMatch (cs : List Char) : Option (Char × List Char) :=
  match cs with
  | c :: rest =>
    if c = '\t' then
      match stateCore rest with
      | some p => some p
      | none => stateCore cs
    else stateCore cs
  | [] => none

/-- `re.search` of the state pattern: first position where it matches,
yielding the captured state character (report.py:99-101). -/
def findStateChar : List Char → Option Char
  | [] => none
  | c :: rest =>
    match stateMatch (c :: rest) with
    | some p => some p.1
    | none => findStateChar rest

/-- `re.findall(marker_pattern, line)[0][-1]`: the month-day capture of the
first date-marker match for glyph `g` (report.py:88-95). -/
def findDateMarker (g : Char) : List Char → Option (List Char)
  | [] => none
  | c :: rest =>
    match markerMatch g (c :: rest) with
    | some p => some p.1
    | none => findDateMarker g rest

/-- Task lifecycle states (datemodel.py:30-34). -/
inductive State where
  | TODO | ONGOING | DONE | CANCELLED
deriving DecidableEq, Repr

/-- The error message of the invalid-state raise in `parse_line`. -/
def stateErrMsg (c : Char) : List Char :=
  "Invalid state character: ".toList ++ [c]

/-- The `match state_char` dispatch of `parse_line` (report.py:103-113). -/
def charToState (c : Char) : Except PyError State :=
  if c = ' ' then Except.ok State.TODO
  else if c = '/' then Except.ok State.ONGOING
  else if c = 'x' then Except.ok State.DONE
  else if c = '-' then Except.ok State.CANCELLED
  else Except.error (PyError.exception (stateErrMsg c))

/-- `Task` (datemodel.py:37-49). -/
structure Task where
  title : List Char
  state : State
  start_date : Option PyDate
  done_date : Option PyDate
  children : List Task
deriving Repr

mutual
/-- `re.sub(r"#\S*", "", line)` (tag stripping in `get_task_lines`,
report.py:54): `stripTagsSkip` is the engine consuming the `\S*` run. -/
def stripTags : List Char → List Char
  | [] => []
  | c :: rest => if c = '#' then stripTagsSkip rest else c :: stripTags rest
def stripTagsSkip : List Char → List Char
  | [] => []
  | c :: rest => if isSpace c then c :: stripTags rest else stripTagsSkip rest
end

/-- Python `str.rstrip()` over the ASCII whitespace range. -/
def rstrip (cs : List Char) : List Char :=
  ((cs.reverse).dropWhile isSpace).reverse

/-- Python `str.strip()` over the ASCII whitespace range. -/
def pyStrip (cs : List Char) : List Char :=
  rstrip (cs.dropWhile isSpace)

/-- Regex piece `.*\n?$` under `fullmatch`: every character is a non-newline,
except possibly a single final newline. -/
def isTail : List Char → Bool
  | [] => true
  | c :: rest => if c = '\n' then rest.isEmpty else isTail rest

/-- Checklist grammar after the optional tab: `- \[.\] .*\n?`. -/
def checklistBody (cs : List Char) : Bool :=
  match chopLit ['-', ' ', '['] cs with
  | none => false
  | some cs1 =>
    match cs1 with
    | [] => false
    | c :: cs2 =>
      if c = '\n' then false
      else
        match chopLit [']', ' '] cs2 with
        | none => false
        | some cs3 => isTail cs3

/-- `re.fullmatch(r"^\t{,1}- \[.\] .*\n?$", line)` (the filter of
`get_task_lines`, report.py:56). -/
def isChecklistLine (cs : List Char) : Bool :=
  match cs with
  | c :: rest => if c = '\t' then (checklistBody rest || checklistBody cs) else checklistBody cs
  | [] => false

/-- The per-line transformation of `get_task_lines`:
`re.sub(r"#\S*", "", line).rstrip()` (report.py:54). -/
def lineTransform (cs : List Char) : List Char :=
  rstrip (stripTags cs)

/-- The pure core of `get_task_lines` (report.py:52-57): keep exactly the
checklist-grammar lines, tag-stripped and right-trimmed. -/
def get_task_lines (lines : List (List Char)) : List (List Char) :=
  (lines.filter isChecklistLine).map lineTransform

/-- Fuelled engine of `re.sub(start|done|state, "", line)` (report.py:114-116):
at each position try the start-marker, done-marker and state patterns in the
alternation's order; on a match skip the matched text, otherwise keep the
character.  Fuel `n` bounds the scan; `subMarkers` supplies `cs.length`,
which suffices because every match consumes at least one character. -/
def subMarkersF : Nat → List Char → List Char
  | 0, _ => []
  | n + 1, cs =>
    match markerMatch glyphStart cs with
    | some p => subMarkersF n p.2
    | none =>
      match markerMatch glyphDone cs with
      | some p => subMarkersF n p.2
      | none =>
        match stateMatch cs with
        | some p => subMarkersF n p.2
        | none =>
          match cs with
          | [] => []
          | c :: rest => c :: subMarkersF n rest

/-- Removal of every start-marker, done-marker and state-pattern match
from the line (the `re.sub` computing `title` in `parse_line`). -/
def subMarkers (cs : List Char) : List Char :=
  subMarkersF cs.length cs

/-- `count_tabs` (report.py:68-74): leading tabs of the line. -/
def count_tabs : List Char → Nat
  | c :: rest => if c = '\t' then count_tabs rest + 1 else 0
  | [] => 0

/-- `parse_line` (report.py:77-117): dates first, then the state character,
then the marker-stripped title; any raise propagates as `Except.error`. -/
def parse_line (today : PyDate) (line : List Char) : Except PyError (Task × Bool) :=
  match get_date today (findDateMarker glyphStart line) with
  | Except.error e => Except.error e
  | Except.ok start_date =>
    match get_date today (findDateMarker glyphDone line) with
    | Except.error e => Except.error e
    | Except.ok done_date =>
      match findStateChar line with
      | none => Except.error PyError.unboundLocal
      | some state_char =>
        match charToState state_char with
        | Except.error e => Except.error e
        | Except.ok state =>
          Except.ok (⟨pyStrip (subMarkers line), state, start_date, done_date, []⟩,
                     count_tabs line == 0)

/-- `task_list[-1].children.append(task)`: update the last task of the list,
`none` modelling the `IndexError` on an empty list. -/
def appendChildToLast : List Task → Task → Option (List Task)
  | [], _ => none
  | [t], c => some [{ t with children := t.children ++ [c] }]
  | t :: ts, c => (appendChildToLast ts c).map (fun l => t :: l)

/-- The `while task_lines` loop of `format_tasks` (report.py:133-143), with
the accumulated `task_list` made explicit. -/
def format_tasksAux (today : PyDate) (acc : List Task) :
    List (List Char) → Except PyError (List Task)
  | [] => Except.ok acc
  | l :: rest =>
    match parse_line today l with
    | Except.error e => Except.error e
    | Except.ok (task, is_parent) =>
      if is_parent then format_tasksAux today (acc ++ [task]) rest
      else
        match appendChildToLast acc task with
        | some acc2 => format_tasksAux today acc2 rest
        | none => Except.error PyError.indexError

/-- `format_tasks` (report.py:133-143). -/
def format_tasks (today : PyDate) (lines : List (List Char)) : Except PyError (List Task) :=
  format_tasksAux today [] lines

/-- `format_tasks` with the caller-visible content of the mutable
`task_lines` list tracked alongside the result: each loop iteration ends
with `del task_lines[0]`, and on a raise the current line is still present. -/
def format_tasksRunAux (today : PyDate) (acc : List Task) :
    List (List Char) → Except PyError (List Task) × List (List Char)
  | [] => (Except.ok acc, [])
  | l :: rest =>
    match parse_line today l with
    | Except.error e => (Except.error e, l :: rest)
    | Except.ok (task, is_parent) =>
      if is_parent then format_tasksRunAux today (acc ++ [task]) rest
      else
        match appendChildToLast acc task with
        | some acc2 => format_tasksRunAux today acc2 rest
        | none => (Except.error PyError.indexError, l :: rest)

/-- `format_tasks` run on a fresh mutable list holding `lines`. -/
def format_tasks_run (today : PyDate) (lines : List (List Char)) :
    Except PyError (List Task) × List (List Char) :=
  format_tasksRunAux today [] lines

/-- The group extraction of `re.search(r"#([^\s/]*)/?(\S*)?", text)` after
the leading `#`: greedy parent group, optional slash, greedy child group. -/
def parseTagGroups (rest : List Char) : List Char × List Char :=
  let keep := fun c => !(isSpace c) && !(c = '/')
  let p := rest.takeWhile keep
  let r1 := rest.dropWhile keep
  let r2 := match r1 with
    | c :: r => if c = '/' then r else r1
    | [] => r1
  (p, r2.takeWhile (fun c => !(isSpace c)))

/-- `parse_tag` (test.py:5-12): search for the tag pattern; `none` models the
`None` returned when the pattern matches nowhere. -/
def parse_tag : List Char → Option (List Char × List Char)
  | [] => none
  | c :: rest => if c = '#' then some (parseTagGroups rest) else parse_tag rest

/-- `d.strftime("%m/%d")`: zero-padded two-digit field. -/
def pad2 (n : Nat) : List Char :=
  if n < 10 then ['0', Nat.digitChar n] else Nat.toDigits 10 n

/-- `d.strftime("%m/%d")` (the cell format of `write_table`). -/
def formatMMDD (d : PyDate) : List Char :=
  pad2 d.month ++ ['/'] ++ pad2 d.day

/-- `"~~" + d + "~~" if d else ""` (report.py:171). -/
def strikeCell (d : List Char) : List Char :=
  if d.isEmpty then [] else "~~".toList ++ d ++ "~~".toList

/-- `"**" + d + "**" if d else ""` (report.py:173). -/
def boldCell (d : List Char) : List Char :=
  if d.isEmpty then [] else "**".toList ++ d ++ "**".toList

/-- The raw `[subtitle, substate_str, substart_date, subdone_date]` row of
`write_table` before styling (report.py:158-169). -/
def rowData (stateStr : State → List Char) (sub : Task) : List (List Char) :=
  [sub.title, stateStr sub.state,
   (match sub.start_date with | some d => formatMMDD d | none => []),
   (match sub.done_date with | some d => formatMMDD d | none => [])]

/-- One styled row of `write_table` (report.py:158-174): strikethrough for a
CANCELLED subtask, else bold when today is its start or done date. -/
def writeRow (stateStr : State → List Char) (today : PyDate) (sub : Task) :
    List (List Char) :=
  let data := rowData stateStr sub
  if sub.state = State.CANCELLED then data.map strikeCell
  else if sub.start_date = some today || sub.done_date = some today then
    data.map boldCell
  else data

/-- The sequence of styled rows `write_table` feeds to the markdown table,
one per child of `task` (the `for subtask in task.children` loop). -/
def write_table_rows (stateStr : State → List Char) (today : PyDate) (task : Task) :
    List (List (List Char)) :=
  task.children.map (writeRow stateStr today)

/-- The synthetic checklist line of the round-trip property: a state marker,
a title, a hashtag token, a start-date marker and a done-date marker. -/
def mkSyntheticLine (c : Char) (title tag : List Char)
    (a1 a2 b1 b2 e1 e2 f1 f2 : Char) : List Char :=
  ['-', ' ', '[', c, ']', ' '] ++ title ++ [' ', '#'] ++ tag ++
    [' ', glyphStart, ' '] ++ [a1, a2, '-', b1, b2] ++
    [' ', glyphDone, ' '] ++ [e1, e2, '-', f1, f2]



/-- Side conditions on title characters for the round-trip property: the
character starts or continues no marker pattern. -/
def safeTitleChar (c : Char) : Prop :=
  isSpace c = false ∧ c ≠ '#' ∧ c ≠ '-' ∧ c ≠ '\t' ∧ c ≠ glyphStart ∧ c ≠ glyphDone

instance (c : Char) : Decidable (safeTitleChar c) := by
  rw [safeTitleChar]
  infer_instance

/-- Side conditions on tag characters: a tag token is a nonempty run of
non-whitespace characters without a slash. -/
def safeTagChar (c : Char) : Prop :=
  isSpace c = false ∧ c ≠ '/'

instance (c : Char) : Decidable (safeTagChar c) := by
  rw [safeTagChar]
  infer_instance

/-- No newline strictly before the last character: the only line shapes that
`readlines`-style input can produce. -/
def NoInteriorNewline (cs : List Char) : Prop := '\n' ∉ cs.dropLast

instance (cs : List Char) : Decidable (NoInteriorNewline cs) :=
  decidable_of_iff ('\n' ∉ cs.dropLast) Iff.rfl

/-- The checklist grammar as the specification states it: at most one leading
tab, then `- [`, any single character, `] `, then arbitrary trailing text and
an optional trailing newline. -/
def ChecklistGrammar (cs : List Char) : Prop :=
  ∃ ind ch t nl, (ind = [] ∨ ind = ['\t']) ∧ (nl = [] ∨ nl = ['\n']) ∧
    cs = ind ++ ['-', ' ', '['] ++ [ch] ++ [']', ' '] ++ t ++ nl

theorem chopLit_eq_some {pat cs r : List Char} :
    chopLit pat cs = some r ↔ cs = pat ++ r := by
  induction pat generalizing cs with
  | nil => simp [chopLit]
  | cons p ps ih =>
    cases cs with
    | nil => simp [chopLit]
    | cons c cs' =>
      by_cases h : c = p
      · subst h
        simp [chopLit, ih]
      · simp [chopLit, h, Ne.symm h]

theorem tryMMDD_length {cs : List Char} {p : List Char × List Char}
    (h : tryMMDD cs = some p) : p.2.length + 5 = cs.length := by
  match cs with
  | [] => simp [tryMMDD] at h
  | [_] => simp [tryMMDD] at h
  | [_, _] => simp [tryMMDD] at h
  | [_, _, _] => simp [tryMMDD] at h
  | [_, _, _, _] => simp [tryMMDD] at h
  | a :: b :: c :: d :: e :: rest =>
    rw [tryMMDD] at h
    split at h
    · cases h
      simp
    · cases h

theorem tryYear_length {cs : List Char} {r : List Char}
    (h : tryYear cs = some r) : r.length + 5 = cs.length := by
  match cs with
  | [] => simp [tryYear] at h
  | [_] => simp [tryYear] at h
  | [_, _] => simp [tryYear] at h
  | [_, _, _] => simp [tryYear] at h
  | [_, _, _, _] => simp [tryYear] at h
  | a :: b :: c :: d :: e :: rest =>
    rw [tryYear] at h
    split at h
    · cases h
      simp
    · cases h

theorem dateCore_length {cs : List Char} {p : List Char × List Char}
    (h : dateCore cs = some p) : p.2.length < cs.length := by
  rw [dateCore] at h
  split at h
  · rename_i r1 hy
    split at h
    · rename_i p' hm
      cases h
      have := tryMMDD_length hm
      have := tryYear_length hy
      omega
    · have := tryMMDD_length h
      omega
  · have := tryMMDD_length h
    omega

theorem dateTail_length {cs : List Char} {p : List Char × List Char}
    (h : dateTail cs = some p) : p.2.length < cs.length := by
  induction cs with
  | nil => simp [dateTail] at h
  | cons c rest ih =>
    rw [dateTail] at h
    cases hdc : dateCore (c :: rest) with
    | some q =>
      rw [hdc] at h
      cases h
      exact dateCore_length hdc
    | none =>
      rw [hdc] at h
      dsimp only at h
      split at h
      · have hl := ih h
        simp only [List.length_cons]
        omega
      · cases h

theorem wsDate_length {cs : List Char} {p : List Char × List Char}
    (h : wsDate cs = some p) : p.2.length < cs.length := by
  match cs with
  | [] => simp [wsDate] at h
  | c :: rest =>
    rw [wsDate] at h
    split at h
    · have hl := dateTail_length h
      simp only [List.length_cons]
      omega
    · cases h

theorem markerMatch_length {g : Char} {cs : List Char} {p : List Char × List Char}
    (h : markerMatch g cs = some p) : p.2.length < cs.length := by
  match cs with
  | [] => simp [markerMatch] at h
  | c :: rest =>
    rw [markerMatch] at h
    split at h
    · have hl := wsDate_length h
      simp only [List.length_cons]
      omega
    · cases h

theorem stateCore_length {cs : List Char} {p : Char × List Char}
    (h : stateCore cs = some p) : p.2.length + 6 = cs.length := by
  rw [stateCore] at h
  split at h
  · cases h
  · rename_i cs1 h1
    split at h
    · cases h
    · rename_i c cs2
      split at h
      · cases h
      · split at h
        · cases h
        · rename_i cs3 h3
          cases h
          rw [chopLit_eq_some] at h1 h3
          subst h1
          subst h3
          simp only [List.length_append, List.length_cons, List.length_nil]
          omega

theorem stateMatch_length {cs : List Char} {p : Char × List Char}
    (h : stateMatch cs = some p) : p.2.length < cs.length := by
  match cs with
  | [] => simp [stateMatch] at h
  | c :: rest =>
    rw [stateMatch] at h
    split at h
    · split at h
      · rename_i hc
        cases h
        have hl := stateCore_length hc
        simp only [List.length_cons]
        omega
      · have hl := stateCore_length h
        omega
    · have hl := stateCore_length h
      omega

theorem subMarkersF_nil (f : Nat) : subMarkersF f [] = [] := by
  cases f <;> rfl

theorem subMarkersF_congr :
    ∀ f g cs, cs.length ≤ f → cs.length ≤ g → subMarkersF f cs = subMarkersF g cs := by
  intro f
  induction f with
  | zero =>
    intro g cs hf _
    have : cs = [] := List.length_eq_zero.mp (Nat.le_zero.mp hf)
    subst this
    simp [subMarkersF_nil]
  | succ f ih =>
    intro g cs hf hg
    cases cs with
    | nil => simp [subMarkersF_nil]
    | cons c rest =>
      cases g with
      | zero => simp at hg
      | succ g =>
        simp only [List.length_cons] at hf hg
        rw [subMarkersF, subMarkersF]
        cases h1 : markerMatch glyphStart (c :: rest) with
        | some p =>
          have hl := markerMatch_length h1
          simp only [List.length_cons] at hl
          exact ih g p.2 (by omega) (by omega)
        | none =>
          cases h2 : markerMatch glyphDone (c :: rest) with
          | some p =>
            have hl := markerMatch_length h2
            simp only [List.length_cons] at hl
            exact ih g p.2 (by omega) (by omega)
          | none =>
            cases h3 : stateMatch (c :: rest) with
            | some p =>
              have hl := stateMatch_length h3
              simp only [List.length_cons] at hl
              exact ih g p.2 (by omega) (by omega)
            | none =>
              rw [ih g rest (by omega) (by omega)]


theorem markerMatch_none_head {g c : Char} (h : c ≠ g) (xs : List Char) :
    markerMatch g (c :: xs) = none := by
  simp [markerMatch, h]

theorem stateCore_none_head {c : Char} (h : c ≠ '-') (xs : List Char) :
    stateCore (c :: xs) = none := by
  rw [stateCore]
  simp [chopLit, h]

theorem stateMatch_none_head {c : Char} (h1 : c ≠ '\t') (h2 : c ≠ '-') (xs : List Char) :
    stateMatch (c :: xs) = none := by
  rw [stateMatch]
  simp [h1, stateCore_none_head h2]

theorem subMarkers_nil : subMarkers [] = [] := rfl

/-- A character that starts no marker pattern passes through `subMarkers`. -/
theorem subMarkers_cons_safe {c : Char} (h1 : c ≠ glyphStart) (h2 : c ≠ glyphDone)
    (h3 : c ≠ '\t') (h4 : c ≠ '-') (xs : List Char) :
    subMarkers (c :: xs) = c :: subMarkers xs := by
  rw [subMarkers, List.length_cons, subMarkersF]
  rw [markerMatch_none_head h1, markerMatch_none_head h2, stateMatch_none_head h3 h4]
  rfl

/-- The state pattern at the head of the line is removed by `subMarkers`. -/
theorem subMarkers_state_step {c : Char} (h : c ≠ '\n') (xs : List Char) :
    subMarkers ('-' :: ' ' :: '[' :: c :: ']' :: ' ' :: xs) = subMarkers xs := by
  rw [subMarkers]
  have hlen : ('-' :: ' ' :: '[' :: c :: ']' :: ' ' :: xs).length = xs.length + 6 := by
    simp only [List.length_cons]
  rw [hlen, subMarkersF]
  rw [markerMatch_none_head (by decide) , markerMatch_none_head (by decide)]
  have hsm : stateMatch ('-' :: ' ' :: '[' :: c :: ']' :: ' ' :: xs) = some (c, xs) := by
    rw [stateMatch]
    simp only [if_neg (by decide : ¬('-' : Char) = '\t')]
    rw [stateCore]
    simp [chopLit, h]
  rw [hsm]
  exact subMarkersF_congr _ _ xs (by omega) (by omega)

theorem dateCore_mmdd {a1 a2 b1 b2 : Char} (d1 : isDigit a1 = true) (d2 : isDigit a2 = true)
    (d3 : isDigit b1 = true) (d4 : isDigit b2 = true) (xs : List Char) :
    dateCore (a1 :: a2 :: '-' :: b1 :: b2 :: xs) = some ([a1, a2, '-', b1, b2], xs) := by
  have hy : tryYear (a1 :: a2 :: '-' :: b1 :: b2 :: xs) = none := by
    rw [tryYear]
    simp [show isDigit '-' = false from rfl]
  rw [dateCore, hy, tryMMDD]
  simp [d1, d2, d3, d4]

/-- A complete date-marker occurrence is removed by `subMarkers`. -/
theorem subMarkers_marker_step {g : Char} (hgs : g = glyphStart ∨ g = glyphDone)
    {a1 a2 b1 b2 : Char} (d1 : isDigit a1 = true) (d2 : isDigit a2 = true)
    (d3 : isDigit b1 = true) (d4 : isDigit b2 = true) (xs : List Char) :
    subMarkers (g :: ' ' :: a1 :: a2 :: '-' :: b1 :: b2 :: xs) = subMarkers xs := by
  have hmm : markerMatch g (g :: ' ' :: a1 :: a2 :: '-' :: b1 :: b2 :: xs) =
      some ([a1, a2, '-', b1, b2], xs) := by
    rw [markerMatch]
    simp only [if_pos rfl]
    rw [wsDate]
    simp only [if_pos (by decide : isSpace ' ' = true)]
    rw [dateTail, dateCore_mmdd d1 d2 d3 d4]
    simp
  rw [subMarkers]
  have hlen : (g :: ' ' :: a1 :: a2 :: '-' :: b1 :: b2 :: xs).length = xs.length + 7 := by
    simp only [List.length_cons]
  rw [hlen, subMarkersF]
  rcases hgs with hg | hg
  · subst hg
    rw [hmm]
    exact subMarkersF_congr _ _ xs (by omega) (by omega)
  · subst hg
    rw [markerMatch_none_head (by decide), hmm]
    exact subMarkersF_congr _ _ xs (by omega) (by omega)

theorem stripTags_append {xs ys : List Char} (h : ∀ c ∈ xs, c ≠ '#') :
    stripTags (xs ++ ys) = xs ++ stripTags ys := by
  induction xs with
  | nil => rfl
  | cons c rest ih =>
    have hc : c ≠ '#' := h c (List.mem_cons_self c rest)
    simp only [List.cons_append, stripTags, if_neg hc, List.append_eq]
    rw [ih (fun d hd => h d (List.mem_cons_of_mem c hd))]

theorem stripTagsSkip_append {xs ys : List Char} (h : ∀ c ∈ xs, isSpace c = false) :
    stripTagsSkip (xs ++ ys) = stripTagsSkip ys := by
  induction xs with
  | nil => rfl
  | cons c rest ih =>
    have hc : isSpace c = false := h c (List.mem_cons_self c rest)
    simp only [List.cons_append, stripTagsSkip, hc]
    exact ih (fun d hd => h d (List.mem_cons_of_mem c hd))

theorem stripTagsSkip_space {c : Char} (h : isSpace c = true) (ys : List Char) :
    stripTagsSkip (c :: ys) = c :: stripTags ys := by
  simp only [stripTagsSkip, h]
  rfl

theorem dropWhile_eq_self {p : Char → Bool} {xs : List Char}
    (h : ∀ c ∈ xs, p c = false) : xs.dropWhile p = xs := by
  cases xs with
  | nil => rfl
  | cons c rest =>
    rw [List.dropWhile_cons, h c (List.mem_cons_self c rest)]
    simp

theorem rstrip_no_trailing {xs : List Char} {c : Char} (h : isSpace c = false) :
    rstrip (xs ++ [c]) = xs ++ [c] := by
  rw [rstrip, List.reverse_append]
  simp only [List.reverse_cons, List.reverse_nil, List.nil_append, List.singleton_append,
    List.dropWhile_cons, h]
  simp

theorem dropWhile_append_all {p : Char → Bool} {as bs : List Char}
    (h : ∀ c ∈ as, p c = true) : List.dropWhile p (as ++ bs) = List.dropWhile p bs := by
  induction as with
  | nil => rfl
  | cons c rest ih =>
    rw [List.cons_append, List.dropWhile_cons, h c (List.mem_cons_self c rest)]
    simp only [if_true]
    exact ih (fun d hd => h d (List.mem_cons_of_mem c hd))

theorem rstrip_trail {xs sp : List Char} (hx : ∀ c ∈ xs, isSpace c = false)
    (hs : ∀ c ∈ sp, isSpace c = true) : rstrip (xs ++ sp) = xs := by
  rw [rstrip, List.reverse_append]
  rw [dropWhile_append_all (fun c hc => hs c (List.mem_reverse.mp hc))]
  rw [dropWhile_eq_self (fun c hc => hx c (List.mem_reverse.mp hc))]
  exact List.reverse_reverse xs

theorem pyStrip_mid {xs sp : List Char} (hx : ∀ c ∈ xs, isSpace c = false)
    (hs : ∀ c ∈ sp, isSpace c = true) : pyStrip (xs ++ sp) = xs := by
  rw [pyStrip]
  cases xs with
  | nil =>
    simp only [List.nil_append]
    rw [List.dropWhile_eq_nil_iff.mpr (fun c hc => by simp [hs c hc])]
    rfl
  | cons x rest =>
    have hx0 : isSpace x = false := hx x (List.mem_cons_self x rest)
    rw [List.cons_append, List.dropWhile_cons, hx0]
    simp only [Bool.false_eq_true, if_false]
    rw [show x :: (rest ++ sp) = (x :: rest) ++ sp from rfl]
    exact rstrip_trail hx hs

theorem findDateMarker_append {g : Char} {xs ys : List Char} (h : ∀ c ∈ xs, c ≠ g) :
    findDateMarker g (xs ++ ys) = findDateMarker g ys := by
  induction xs with
  | nil => rfl
  | cons c rest ih =>
    have hc : c ≠ g := h c (List.mem_cons_self c rest)
    simp only [List.cons_append]
    rw [findDateMarker, markerMatch_none_head hc]
    exact ih (fun d hd => h d (List.mem_cons_of_mem c hd))

theorem findDateMarker_here {g : Char} {a1 a2 b1 b2 : Char}
    (d1 : isDigit a1 = true) (d2 : isDigit a2 = true)
    (d3 : isDigit b1 = true) (d4 : isDigit b2 = true) (xs : List Char) :
    findDateMarker g (g :: ' ' :: a1 :: a2 :: '-' :: b1 :: b2 :: xs) =
      some [a1, a2, '-', b1, b2] := by
  rw [findDateMarker]
  have hmm : markerMatch g (g :: ' ' :: a1 :: a2 :: '-' :: b1 :: b2 :: xs) =
      some ([a1, a2, '-', b1, b2], xs) := by
    rw [markerMatch]
    simp only [if_pos rfl]
    rw [wsDate]
    simp only [if_pos (by decide : isSpace ' ' = true)]
    rw [dateTail, dateCore_mmdd d1 d2 d3 d4]
    simp
  rw [hmm]

theorem findStateChar_head {c : Char} (h : c ≠ '\n') (xs : List Char) :
    findStateChar ('-' :: ' ' :: '[' :: c :: ']' :: ' ' :: xs) = some c := by
  rw [findStateChar]
  have hsm : stateMatch ('-' :: ' ' :: '[' :: c :: ']' :: ' ' :: xs) = some (c, xs) := by
    rw [stateMatch]
    simp only [if_neg (by decide : ¬('-' : Char) = '\t')]
    rw [stateCore]
    simp [chopLit, h]
  rw [hsm]

theorem digit_ne_dash {c : Char} (h : isDigit c = true) : c ≠ '-' := by
  intro he
  subst he
  exact absurd h (by decide)

theorem splitOnDash_mmdd {a1 a2 b1 b2 : Char} (d1 : isDigit a1 = true)
    (d2 : isDigit a2 = true) (d3 : isDigit b1 = true) (d4 : isDigit b2 = true) :
    splitOnDash [a1, a2, '-', b1, b2] = [[a1, a2], [b1, b2]] := by
  rw [splitOnDash, if_neg (digit_ne_dash d1)]
  rw [splitOnDash, if_neg (digit_ne_dash d2)]
  rw [splitOnDash, if_pos rfl]
  rw [splitOnDash, if_neg (digit_ne_dash d3)]
  rw [splitOnDash, if_neg (digit_ne_dash d4)]
  rfl

theorem pyInt_two {a b : Char} (d1 : isDigit a = true) (d2 : isDigit b = true) :
    pyInt [a, b] = some (mval a b) := by
  rw [pyInt]
  simp only [List.all_cons, List.all_nil, d1, d2]
  simp [mval]

/-- `get_date` on a digit `MM-DD` fragment whose month/day value is a valid
date both this year and last year. -/
theorem get_date_mmdd {t : PyDate} {a1 a2 b1 b2 : Char} (d1 : isDigit a1 = true)
    (d2 : isDigit a2 = true) (d3 : isDigit b1 = true) (d4 : isDigit b2 = true)
    (hv : isValidDate t.year (mval a1 a2) (mval b1 b2) = true)
    (hv' : isValidDate (t.year - 1) (mval a1 a2) (mval b1 b2) = true) :
    get_date t (some [a1, a2, '-', b1, b2]) =
      Except.ok (some (resolvePast t (mval a1 a2) (mval b1 b2))) := by
  rw [get_date, splitOnDash_mmdd d1 d2 d3 d4]
  simp only [List.mapM_cons, List.mapM_nil, pyInt_two d1 d2, pyInt_two d3 d4]
  simp only [Option.pure_def, Option.bind_eq_bind, Option.some_bind, List.reverse_cons,
    List.reverse_nil, List.nil_append, List.singleton_append]
  rw [resolvePast]
  simp only [hv, if_true]
  by_cases hle : dateLE ⟨t.year, mval a1 a2, mval b1 b2⟩ t = true
  · simp [hle]
  · simp only [Bool.not_eq_true] at hle
    simp [hle, hv']

theorem ne_of_digit_not {c d : Char} (h : isDigit c = true) (hd : isDigit d = false) :
    c ≠ d := by
  intro he
  subst he
  rw [h] at hd
  cases hd

theorem ne_of_nonspace {c d : Char} (h : isSpace c = false) (hd : isSpace d = true) :
    c ≠ d := by
  intro he
  subst he
  rw [hd] at h
  cases h

theorem digit_not_space {c : Char} (h : isDigit c = true) : isSpace c = false := by
  cases hs : isSpace c with
  | false => rfl
  | true =>
    exfalso
    have hor : ((((c = ' ' ∨ c = '\t') ∨ c = '\n') ∨ c = '\x0d') ∨ c = '\x0b') ∨ c = '\x0c' := by
      rw [isSpace] at hs
      simpa using hs
    rcases hor with ((((rfl | rfl) | rfl) | rfl) | rfl) | rfl <;> exact absurd h (by decide)

theorem charToState_cases {c : Char} {st : State} (h : charToState c = Except.ok st) :
    c = ' ' ∨ c = '/' ∨ c = 'x' ∨ c = '-' := by
  rw [charToState] at h
  by_cases h1 : c = ' '
  · exact Or.inl h1
  by_cases h2 : c = '/'
  · exact Or.inr (Or.inl h2)
  by_cases h3 : c = 'x'
  · exact Or.inr (Or.inr (Or.inl h3))
  by_cases h4 : c = '-'
  · exact Or.inr (Or.inr (Or.inr h4))
  rw [if_neg h1, if_neg h2, if_neg h3, if_neg h4] at h
  cases h

theorem subMarkers_append_safe {xs ys : List Char}
    (h : ∀ c ∈ xs, c ≠ glyphStart ∧ c ≠ glyphDone ∧ c ≠ '\t' ∧ c ≠ '-') :
    subMarkers (xs ++ ys) = xs ++ subMarkers ys := by
  induction xs with
  | nil => rfl
  | cons c rest ih =>
    obtain ⟨h1, h2, h3, h4⟩ := h c (List.mem_cons_self c rest)
    rw [List.cons_append, subMarkers_cons_safe h1 h2 h3 h4,
      ih (fun d hd => h d (List.mem_cons_of_mem c hd))]
    simp

theorem parse_tag_append {xs ys : List Char} (h : ∀ c ∈ xs, c ≠ '#') :
    parse_tag (xs ++ ys) = parse_tag ys := by
  induction xs with
  | nil => rfl
  | cons c rest ih =>
    rw [List.cons_append, parse_tag, if_neg (h c (List.mem_cons_self c rest))]
    exact ih (fun d hd => h d (List.mem_cons_of_mem c hd))

theorem parse_tag_hash (ys : List Char) :
    parse_tag ('#' :: ys) = some (parseTagGroups ys) := by
  rw [parse_tag, if_pos rfl]

theorem takeWhile_append_all {p : Char → Bool} {xs : List Char} {y : Char} {ys : List Char}
    (h : ∀ c ∈ xs, p c = true) (hy : p y = false) :
    List.takeWhile p (xs ++ y :: ys) = xs := by
  induction xs with
  | nil => simp [List.takeWhile_cons, hy]
  | cons c rest ih =>
    rw [List.cons_append, List.takeWhile_cons, h c (List.mem_cons_self c rest)]
    simp only [if_true]
    rw [ih (fun d hd => h d (List.mem_cons_of_mem c hd))]

theorem dropWhile_append_stop {p : Char → Bool} {xs : List Char} {y : Char} {ys : List Char}
    (h : ∀ c ∈ xs, p c = true) (hy : p y = false) :
    List.dropWhile p (xs ++ y :: ys) = y :: ys := by
  induction xs with
  | nil => simp [List.dropWhile_cons, hy]
  | cons c rest ih =>
    rw [List.cons_append, List.dropWhile_cons, h c (List.mem_cons_self c rest)]
    simp only [if_true]
    exact ih (fun d hd => h d (List.mem_cons_of_mem c hd))

theorem isTail_no_newline {xs : List Char} (h : ∀ c ∈ xs, c ≠ '\n') :
    isTail xs = true := by
  induction xs with
  | nil => rfl
  | cons c rest ih =>
    rw [isTail, if_neg (h c (List.mem_cons_self c rest))]
    exact ih (fun d hd => h d (List.mem_cons_of_mem c hd))

theorem stripTags_no_hash {xs : List Char} (h : ∀ c ∈ xs, c ≠ '#') :
    stripTags xs = xs := by
  have h2 := @stripTags_append xs [] h
  simp only [List.append_nil] at h2
  rw [h2]
  simp [stripTags]

theorem synthetic_lineTransform {c : Char} {title tag : List Char}
    {a1 a2 b1 b2 e1 e2 f1 f2 : Char}
    (hst : c = ' ' ∨ c = '/' ∨ c = 'x' ∨ c = '-')
    (hti : ∀ x ∈ title, safeTitleChar x)
    (htag : ∀ x ∈ tag, safeTagChar x)
    (d1 : isDigit a1 = true) (d2 : isDigit a2 = true)
    (d3 : isDigit b1 = true) (d4 : isDigit b2 = true)
    (d5 : isDigit e1 = true) (d6 : isDigit e2 = true)
    (d7 : isDigit f1 = true) (d8 : isDigit f2 = true) :
    lineTransform (mkSyntheticLine c title tag a1 a2 b1 b2 e1 e2 f1 f2) =
      ['-', ' ', '[', c, ']', ' '] ++ title ++
        (' ' :: ' ' :: glyphStart :: ' ' :: a1 :: a2 :: '-' :: b1 :: b2 ::
          ' ' :: glyphDone :: ' ' :: e1 :: e2 :: '-' :: f1 :: f2 :: []) := by
  have hcne : c ≠ '#' := by rcases hst with rfl | rfl | rfl | rfl <;> decide
  have ht2 : ∀ x ∈ (glyphStart :: ' ' :: a1 :: a2 :: '-' :: b1 :: b2 ::
      ' ' :: glyphDone :: ' ' :: e1 :: e2 :: '-' :: f1 :: f2 :: []), x ≠ '#' := by
    intro x hx
    simp only [List.mem_cons, List.not_mem_nil, or_false] at hx
    rcases hx with rfl | rfl | rfl | rfl | rfl | rfl | rfl | rfl | rfl | rfl | rfl | rfl | rfl | rfl | rfl
    · decide
    · decide
    · exact ne_of_digit_not d1 (by decide)
    · exact ne_of_digit_not d2 (by decide)
    · decide
    · exact ne_of_digit_not d3 (by decide)
    · exact ne_of_digit_not d4 (by decide)
    · decide
    · decide
    · decide
    · exact ne_of_digit_not d5 (by decide)
    · exact ne_of_digit_not d6 (by decide)
    · decide
    · exact ne_of_digit_not d7 (by decide)
    · exact ne_of_digit_not d8 (by decide)
  have hpre : ∀ x ∈ (['-', ' ', '[', c, ']', ' '] ++ (title ++ [' '])), x ≠ '#' := by
    intro x hx
    simp only [List.mem_append, List.mem_cons, List.not_mem_nil, or_false] at hx
    rcases hx with (rfl | rfl | rfl | rfl | rfl | rfl) | hx2
    · decide
    · decide
    · decide
    · exact hcne
    · decide
    · decide
    · rcases hx2 with hx3 | rfl
      · exact (hti x hx3).2.1
      · decide
  have hL : mkSyntheticLine c title tag a1 a2 b1 b2 e1 e2 f1 f2 =
      (['-', ' ', '[', c, ']', ' '] ++ (title ++ [' '])) ++
        ('#' :: (tag ++ (' ' :: (glyphStart :: ' ' :: a1 :: a2 :: '-' :: b1 :: b2 ::
          ' ' :: glyphDone :: ' ' :: e1 :: e2 :: '-' :: f1 :: f2 :: [])))) := by
    rw [mkSyntheticLine]
    simp [List.append_assoc]
  rw [lineTransform, hL, stripTags_append hpre]
  rw [show stripTags ('#' :: (tag ++ (' ' :: (glyphStart :: ' ' :: a1 :: a2 :: '-' :: b1 :: b2 ::
      ' ' :: glyphDone :: ' ' :: e1 :: e2 :: '-' :: f1 :: f2 :: [])))) =
      stripTagsSkip (tag ++ (' ' :: (glyphStart :: ' ' :: a1 :: a2 :: '-' :: b1 :: b2 ::
      ' ' :: glyphDone :: ' ' :: e1 :: e2 :: '-' :: f1 :: f2 :: []))) from by simp [stripTags]]
  rw [stripTagsSkip_append (fun x hx => (htag x hx).1)]
  rw [stripTagsSkip_space (by decide)]
  rw [stripTags_no_hash ht2]
  have hre : (['-', ' ', '[', c, ']', ' '] ++ (title ++ [' '])) ++
      (' ' :: (glyphStart :: ' ' :: a1 :: a2 :: '-' :: b1 :: b2 ::
        ' ' :: glyphDone :: ' ' :: e1 :: e2 :: '-' :: f1 :: f2 :: [])) =
      ((['-', ' ', '[', c, ']', ' '] ++ title ++
        (' ' :: ' ' :: glyphStart :: ' ' :: a1 :: a2 :: '-' :: b1 :: b2 ::
          ' ' :: glyphDone :: ' ' :: e1 :: e2 :: '-' :: f1 :: []))) ++ [f2] := by
    simp [List.append_assoc]
  rw [hre, rstrip_no_trailing (digit_not_space d8)]
  simp [List.append_assoc]

theorem parse_line_stripped {today : PyDate} {c : Char} {st : State} {title : List Char}
    {a1 a2 b1 b2 e1 e2 f1 f2 : Char}
    (hcs : charToState c = Except.ok st)
    (hti : ∀ x ∈ title, safeTitleChar x)
    (d1 : isDigit a1 = true) (d2 : isDigit a2 = true)
    (d3 : isDigit b1 = true) (d4 : isDigit b2 = true)
    (d5 : isDigit e1 = true) (d6 : isDigit e2 = true)
    (d7 : isDigit f1 = true) (d8 : isDigit f2 = true)
    (hv1 : isValidDate today.year (mval a1 a2) (mval b1 b2) = true)
    (hv1p : isValidDate (today.year - 1) (mval a1 a2) (mval b1 b2) = true)
    (hv2 : isValidDate today.year (mval e1 e2) (mval f1 f2) = true)
    (hv2p : isValidDate (today.year - 1) (mval e1 e2) (mval f1 f2) = true) :
    parse_line today (['-', ' ', '[', c, ']', ' '] ++ title ++
        (' ' :: ' ' :: glyphStart :: ' ' :: a1 :: a2 :: '-' :: b1 :: b2 ::
          ' ' :: glyphDone :: ' ' :: e1 :: e2 :: '-' :: f1 :: f2 :: [])) =
      Except.ok (⟨title, st, some (resolvePast today (mval a1 a2) (mval b1 b2)),
        some (resolvePast today (mval e1 e2) (mval f1 f2)), []⟩, true) := by
  have hst := charToState_cases hcs
  have hcnl : c ≠ '\n' := by rcases hst with rfl | rfl | rfl | rfl <;> decide
  set S := ['-', ' ', '[', c, ']', ' '] ++ title ++
      (' ' :: ' ' :: glyphStart :: ' ' :: a1 :: a2 :: '-' :: b1 :: b2 ::
        ' ' :: glyphDone :: ' ' :: e1 :: e2 :: '-' :: f1 :: f2 :: []) with hS
  have hfd1 : findDateMarker glyphStart S = some [a1, a2, '-', b1, b2] := by
    have hres : S = ('-' :: ' ' :: '[' :: c :: ']' :: ' ' :: (title ++ [' ', ' '])) ++
        (glyphStart :: ' ' :: a1 :: a2 :: '-' :: b1 :: b2 ::
          (' ' :: glyphDone :: ' ' :: e1 :: e2 :: '-' :: f1 :: f2 :: [])) := by
      rw [hS]
      simp [List.append_assoc]
    rw [hres, findDateMarker_append, findDateMarker_here d1 d2 d3 d4]
    intro x hx
    simp only [List.mem_cons, List.mem_append, List.not_mem_nil, or_false] at hx
    rcases hx with rfl | rfl | rfl | rfl | rfl | rfl | hx2
    · decide
    · decide
    · decide
    · rcases hst with rfl | rfl | rfl | rfl <;> decide
    · decide
    · decide
    · rcases hx2 with hx3 | rfl | rfl
      · exact (hti x hx3).2.2.2.2.1
      · decide
      · decide
  have hfd2 : findDateMarker glyphDone S = some [e1, e2, '-', f1, f2] := by
    have hres : S = ('-' :: ' ' :: '[' :: c :: ']' :: ' ' ::
        (title ++ (' ' :: ' ' :: glyphStart :: ' ' :: a1 :: a2 :: '-' :: b1 :: b2 :: [' ']))) ++
        (glyphDone :: ' ' :: e1 :: e2 :: '-' :: f1 :: f2 :: []) := by
      rw [hS]
      simp [List.append_assoc]
    rw [hres, findDateMarker_append, findDateMarker_here d5 d6 d7 d8]
    intro x hx
    simp only [List.mem_cons, List.mem_append, List.not_mem_nil, or_false] at hx
    rcases hx with rfl | rfl | rfl | rfl | rfl | rfl | hx2
    · decide
    · decide
    · decide
    · rcases hst with rfl | rfl | rfl | rfl <;> decide
    · decide
    · decide
    · rcases hx2 with hx3 | rfl | rfl | rfl | rfl | rfl | rfl | rfl | rfl | rfl | rfl
      · exact (hti x hx3).2.2.2.2.2
      · decide
      · decide
      · decide
      · decide
      · exact ne_of_digit_not d1 (by decide)
      · exact ne_of_digit_not d2 (by decide)
      · decide
      · exact ne_of_digit_not d3 (by decide)
      · exact ne_of_digit_not d4 (by decide)
      · decide
  have hfs : findStateChar S = some c := by
    have hres : S = '-' :: ' ' :: '[' :: c :: ']' :: ' ' :: (title ++
        (' ' :: ' ' :: glyphStart :: ' ' :: a1 :: a2 :: '-' :: b1 :: b2 ::
          ' ' :: glyphDone :: ' ' :: e1 :: e2 :: '-' :: f1 :: f2 :: [])) := by
      rw [hS]
      simp
    rw [hres]
    exact findStateChar_head hcnl _
  have hsub : pyStrip (subMarkers S) = title := by
    have hres : S = '-' :: ' ' :: '[' :: c :: ']' :: ' ' :: (title ++
        (' ' :: ' ' :: glyphStart :: ' ' :: a1 :: a2 :: '-' :: b1 :: b2 ::
          ' ' :: glyphDone :: ' ' :: e1 :: e2 :: '-' :: f1 :: f2 :: [])) := by
      rw [hS]
      simp
    rw [hres, subMarkers_state_step hcnl]
    rw [subMarkers_append_safe (fun x hx => ⟨(hti x hx).2.2.2.2.1, (hti x hx).2.2.2.2.2,
      (hti x hx).2.2.2.1, (hti x hx).2.2.1⟩)]
    rw [subMarkers_cons_safe (by decide) (by decide) (by decide) (by decide)]
    rw [subMarkers_cons_safe (by decide) (by decide) (by decide) (by decide)]
    rw [subMarkers_marker_step (Or.inl rfl) d1 d2 d3 d4]
    rw [subMarkers_cons_safe (by decide) (by decide) (by decide) (by decide)]
    rw [show (glyphDone :: ' ' :: e1 :: e2 :: '-' :: f1 :: f2 :: []) =
      glyphDone :: ' ' :: e1 :: e2 :: '-' :: f1 :: f2 :: [] from rfl]
    rw [subMarkers_marker_step (Or.inr rfl) d5 d6 d7 d8, subMarkers_nil]
    exact pyStrip_mid (fun x hx => (hti x hx).1) (by
      intro x hx
      simp only [List.mem_cons, List.not_mem_nil, or_false] at hx
      rcases hx with rfl | rfl | rfl <;> decide)
  have hct : count_tabs S = 0 := by
    rw [hS]
    simp only [List.cons_append]
    rw [count_tabs]
    simp
  rw [parse_line, hfd1, get_date_mmdd d1 d2 d3 d4 hv1 hv1p,
    hfd2, get_date_mmdd d5 d6 d7 d8 hv2 hv2p, hfs]
  dsimp only
  rw [hcs]
  dsimp only
  rw [hsub, hct]
  rfl

theorem resolvePast_month (t : PyDate) (m d : Nat) : (resolvePast t m d).month = m := by
  rw [resolvePast]
  split <;> rfl

theorem resolvePast_day (t : PyDate) (m d : Nat) : (resolvePast t m d).day = d := by
  rw [resolvePast]
  split <;> rfl

/-- C5: a synthetic checklist line carrying a state marker, a tag token, a
start-date marker and a done-date marker passes the line filter; after the
tag stripping of `get_task_lines`, `parse_line` recovers the state, the
start date and the done date from their embedded text and produces a title
equal to the embedded title, which contains none of the four marker
substrings; `parse_tag` recovers the tag from the raw line. -/
theorem c5_roundtrip (today : PyDate) (c : Char) (st : State) (title tag : List Char)
    (a1 a2 b1 b2 e1 e2 f1 f2 : Char)
    (hcs : charToState c = Except.ok st)
    (hti : ∀ x ∈ title, safeTitleChar x)
    (htag : ∀ x ∈ tag, safeTagChar x)
    (d1 : isDigit a1 = true) (d2 : isDigit a2 = true)
    (d3 : isDigit b1 = true) (d4 : isDigit b2 = true)
    (d5 : isDigit e1 = true) (d6 : isDigit e2 = true)
    (d7 : isDigit f1 = true) (d8 : isDigit f2 = true)
    (hv1 : isValidDate today.year (mval a1 a2) (mval b1 b2) = true)
    (hv1p : isValidDate (today.year - 1) (mval a1 a2) (mval b1 b2) = true)
    (hv2 : isValidDate today.year (mval e1 e2) (mval f1 f2) = true)
    (hv2p : isValidDate (today.year - 1) (mval e1 e2) (mval f1 f2) = true) :
    isChecklistLine (mkSyntheticLine c title tag a1 a2 b1 b2 e1 e2 f1 f2) = true ∧
    parse_line today (lineTransform (mkSyntheticLine c title tag a1 a2 b1 b2 e1 e2 f1 f2)) =
      Except.ok (⟨title, st, some (resolvePast today (mval a1 a2) (mval b1 b2)),
        some (resolvePast today (mval e1 e2) (mval f1 f2)), []⟩, true) ∧
    parse_tag (mkSyntheticLine c title tag a1 a2 b1 b2 e1 e2 f1 f2) = some (tag, []) ∧
    (resolvePast today (mval a1 a2) (mval b1 b2)).month = mval a1 a2 ∧
    (resolvePast today (mval a1 a2) (mval b1 b2)).day = mval b1 b2 ∧
    (resolvePast today (mval e1 e2) (mval f1 f2)).month = mval e1 e2 ∧
    (resolvePast today (mval e1 e2) (mval f1 f2)).day = mval f1 f2 ∧
    ¬ (glyphStart :: ' ' :: [a1, a2, '-', b1, b2] <:+: title) ∧
    ¬ (glyphDone :: ' ' :: [e1, e2, '-', f1, f2] <:+: title) ∧
    ¬ (['-', ' ', '[', c, ']', ' '] <:+: title) ∧
    ¬ ('#' :: tag <:+: title) := by
  have hst := charToState_cases hcs
  have hcnl : c ≠ '\n' := by rcases hst with rfl | rfl | rfl | rfl <;> decide
  refine ⟨?_, ?_, ?_, resolvePast_month today _ _, resolvePast_day today _ _,
    resolvePast_month today _ _, resolvePast_day today _ _, ?_, ?_, ?_, ?_⟩
  · -- the synthetic line passes the checklist filter
    have hLcons : mkSyntheticLine c title tag a1 a2 b1 b2 e1 e2 f1 f2 =
        '-' :: ' ' :: '[' :: c :: ']' :: ' ' :: (title ++ [' ', '#'] ++ tag ++
          [' ', glyphStart, ' '] ++ [a1, a2, '-', b1, b2] ++ [' ', glyphDone, ' '] ++
          [e1, e2, '-', f1, f2]) := by
      rw [mkSyntheticLine]
      simp [List.append_assoc]
    rw [hLcons, isChecklistLine]
    rw [if_neg (by decide : ¬ ('-' : Char) = '\t')]
    rw [checklistBody]
    rw [show chopLit ['-', ' ', '['] ('-' :: ' ' :: '[' :: c :: ']' :: ' ' :: (title ++ [' ', '#'] ++ tag ++
          [' ', glyphStart, ' '] ++ [a1, a2, '-', b1, b2] ++ [' ', glyphDone, ' '] ++
          [e1, e2, '-', f1, f2])) = some (c :: ']' :: ' ' :: (title ++ [' ', '#'] ++ tag ++
          [' ', glyphStart, ' '] ++ [a1, a2, '-', b1, b2] ++ [' ', glyphDone, ' '] ++
          [e1, e2, '-', f1, f2])) from by simp [chopLit]]
    dsimp only
    rw [if_neg hcnl]
    rw [show chopLit [']', ' '] (']' :: ' ' :: (title ++ [' ', '#'] ++ tag ++
          [' ', glyphStart, ' '] ++ [a1, a2, '-', b1, b2] ++ [' ', glyphDone, ' '] ++
          [e1, e2, '-', f1, f2])) = some (title ++ [' ', '#'] ++ tag ++
          [' ', glyphStart, ' '] ++ [a1, a2, '-', b1, b2] ++ [' ', glyphDone, ' '] ++
          [e1, e2, '-', f1, f2]) from by simp [chopLit]]
    dsimp only
    apply isTail_no_newline
    intro x hx
    simp only [List.mem_append, List.mem_cons, List.not_mem_nil, or_false] at hx
    rcases hx with ((((((hx1 | (rfl | rfl)) | hx2) | (rfl | rfl | rfl)) |
        (rfl | rfl | rfl | rfl | rfl)) | (rfl | rfl | rfl)) | (rfl | rfl | rfl | rfl | rfl))
    · exact ne_of_nonspace (hti x hx1).1 (by decide)
    · decide
    · decide
    · exact ne_of_nonspace (htag x hx2).1 (by decide)
    · decide
    · decide
    · decide
    · exact ne_of_digit_not d1 (by decide)
    · exact ne_of_digit_not d2 (by decide)
    · decide
    · exact ne_of_digit_not d3 (by decide)
    · exact ne_of_digit_not d4 (by decide)
    · decide
    · decide
    · decide
    · exact ne_of_digit_not d5 (by decide)
    · exact ne_of_digit_not d6 (by decide)
    · decide
    · exact ne_of_digit_not d7 (by decide)
    · exact ne_of_digit_not d8 (by decide)
  · rw [synthetic_lineTransform hst hti htag d1 d2 d3 d4 d5 d6 d7 d8]
    exact parse_line_stripped hcs hti d1 d2 d3 d4 d5 d6 d7 d8 hv1 hv1p hv2 hv2p
  · -- tag recovery
    have hcne : c ≠ '#' := by rcases hst with rfl | rfl | rfl | rfl <;> decide
    have hL : mkSyntheticLine c title tag a1 a2 b1 b2 e1 e2 f1 f2 =
        (['-', ' ', '[', c, ']', ' '] ++ (title ++ [' '])) ++
          ('#' :: (tag ++ (' ' :: (glyphStart :: ' ' :: a1 :: a2 :: '-' :: b1 :: b2 ::
            ' ' :: glyphDone :: ' ' :: e1 :: e2 :: '-' :: f1 :: f2 :: [])))) := by
      rw [mkSyntheticLine]
      simp [List.append_assoc]
    rw [hL, parse_tag_append, parse_tag_hash]
    · rw [parseTagGroups]
      have hkeep : ∀ x ∈ tag, (fun ch => !(isSpace ch) && !(ch = '/')) x = true := by
        intro x hx
        have := htag x hx
        simp [this.1, this.2]
      have hsp : (fun ch => !(isSpace ch) && !(ch = '/')) ' ' = false := by decide
      rw [takeWhile_append_all hkeep hsp, dropWhile_append_stop hkeep hsp]
      dsimp only
      rw [if_neg (by decide : ¬ (' ' : Char) = '/')]
      rw [show List.takeWhile (fun ch => !(isSpace ch))
        (' ' :: (glyphStart :: ' ' :: a1 :: a2 :: '-' :: b1 :: b2 ::
          ' ' :: glyphDone :: ' ' :: e1 :: e2 :: '-' :: f1 :: f2 :: [])) = [] from by
        rw [List.takeWhile_cons, if_neg (by decide : ¬ ((!isSpace ' ') = true))]]
    · intro x hx
      simp only [List.mem_append, List.mem_cons, List.not_mem_nil, or_false] at hx
      rcases hx with (rfl | rfl | rfl | rfl | rfl | rfl) | (hx2 | rfl)
      · decide
      · decide
      · decide
      · exact hcne
      · decide
      · decide
      · exact (hti x hx2).2.1
      · decide
  · intro hinf
    exact absurd rfl (hti glyphStart (hinf.subset (by simp))).2.2.2.2.1
  · intro hinf
    exact absurd rfl (hti glyphDone (hinf.subset (by simp))).2.2.2.2.2
  · intro hinf
    exact absurd rfl (hti '-' (hinf.subset (by simp))).2.2.1
  · intro hinf
    exact absurd rfl (hti '#' (hinf.subset (by simp))).2.1

theorem splitOnDash_ymmdd {y1 y2 y3 y4 a1 a2 b1 b2 : Char}
    (e1 : isDigit y1 = true) (e2 : isDigit y2 = true) (e3 : isDigit y3 = true)
    (e4 : isDigit y4 = true) (d1 : isDigit a1 = true) (d2 : isDigit a2 = true)
    (d3 : isDigit b1 = true) (d4 : isDigit b2 = true) :
    splitOnDash [y1, y2, y3, y4, '-', a1, a2, '-', b1, b2] =
      [[y1, y2, y3, y4], [a1, a2], [b1, b2]] := by
  rw [splitOnDash, if_neg (digit_ne_dash e1)]
  rw [splitOnDash, if_neg (digit_ne_dash e2)]
  rw [splitOnDash, if_neg (digit_ne_dash e3)]
  rw [splitOnDash, if_neg (digit_ne_dash e4)]
  rw [splitOnDash, if_pos rfl]
  rw [splitOnDash_mmdd d1 d2 d3 d4]

theorem pyInt_four {y1 y2 y3 y4 : Char} (e1 : isDigit y1 = true) (e2 : isDigit y2 = true)
    (e3 : isDigit y3 = true) (e4 : isDigit y4 = true) :
    pyInt [y1, y2, y3, y4] =
      some (10 * (10 * (10 * digitVal y1 + digitVal y2) + digitVal y3) + digitVal y4) := by
  rw [pyInt]
  simp only [List.all_cons, List.all_nil, e1, e2, e3, e4]
  simp

/-- `get_date` on a digit `MM-DD` fragment, written as its decision tree. -/
theorem get_date_mmdd_eq {t : PyDate} {a1 a2 b1 b2 : Char} (d1 : isDigit a1 = true)
    (d2 : isDigit a2 = true) (d3 : isDigit b1 = true) (d4 : isDigit b2 = true) :
    get_date t (some [a1, a2, '-', b1, b2]) =
      (if isValidDate t.year (mval a1 a2) (mval b1 b2) = true then
        (if dateLE ⟨t.year, mval a1 a2, mval b1 b2⟩ t = true then
          Except.ok (some ⟨t.year, mval a1 a2, mval b1 b2⟩)
        else if isValidDate (t.year - 1) (mval a1 a2) (mval b1 b2) = true then
          Except.ok (some ⟨t.year - 1, mval a1 a2, mval b1 b2⟩)
        else Except.error PyError.valueError)
      else Except.error PyError.valueError) := by
  rw [get_date, splitOnDash_mmdd d1 d2 d3 d4]
  simp only [List.mapM_cons, List.mapM_nil, pyInt_two d1 d2, pyInt_two d3 d4]
  simp only [Option.pure_def, Option.bind_eq_bind, Option.some_bind, List.reverse_cons,
    List.reverse_nil, List.nil_append, List.singleton_append]

/-- The optional `YYYY-` prefix of a fragment is discarded by `get_date`. -/
theorem get_date_year_discard {t : PyDate} {y1 y2 y3 y4 a1 a2 b1 b2 : Char}
    (e1 : isDigit y1 = true) (e2 : isDigit y2 = true) (e3 : isDigit y3 = true)
    (e4 : isDigit y4 = true) (d1 : isDigit a1 = true) (d2 : isDigit a2 = true)
    (d3 : isDigit b1 = true) (d4 : isDigit b2 = true) :
    get_date t (some ([y1, y2, y3, y4, '-'] ++ [a1, a2, '-', b1, b2])) =
      get_date t (some [a1, a2, '-', b1, b2]) := by
  rw [show [y1, y2, y3, y4, '-'] ++ [a1, a2, '-', b1, b2] =
    [y1, y2, y3, y4, '-', a1, a2, '-', b1, b2] from rfl]
  rw [get_date, splitOnDash_ymmdd e1 e2 e3 e4 d1 d2 d3 d4]
  simp only [List.mapM_cons, List.mapM_nil, pyInt_two d1 d2, pyInt_two d3 d4,
    pyInt_four e1 e2 e3 e4]
  simp only [Option.pure_def, Option.bind_eq_bind, Option.some_bind, List.reverse_cons,
    List.reverse_nil, List.nil_append, List.singleton_append, List.cons_append]
  rw [get_date, splitOnDash_mmdd d1 d2 d3 d4]
  simp only [List.mapM_cons, List.mapM_nil, pyInt_two d1 d2, pyInt_two d3 d4]
  simp only [Option.pure_def, Option.bind_eq_bind, Option.some_bind, List.reverse_cons,
    List.reverse_nil, List.nil_append, List.singleton_append]

theorem isValidDate_year_pos {y m d : Nat} (h : isValidDate y m d = true) : 1 ≤ y := by
  rw [isValidDate] at h
  simp only [Bool.and_eq_true, decide_eq_true_eq] at h
  exact h.1.1.1.1.1

/-- C1 counterexample: with today = 2024-01-15 the fragment `02-29` builds the
valid candidate 2024-02-29, which is after today, yet `get_date` raises
instead of returning 2023-02-29 (which does not exist). -/
theorem c1_counterexample :
    isValidDate 2024 2 29 = true ∧
    dateLE ⟨2024, 2, 29⟩ ⟨2024, 1, 15⟩ = false ∧
    get_date ⟨2024, 1, 15⟩ (some ("02-29".toList)) = Except.error PyError.valueError :=
  ⟨by decide, by decide, rfl⟩

/-- C1 amended: for a fixed `today`, `get_date` maps `none` to `none`; a
`YYYY-` prefix is discarded; the candidate built from today's year is
returned when it is not after today; otherwise last year's date is returned
when it exists; and every non-none result is at most `today`. -/
theorem c1_amended (today : PyDate) (ys : List Char) (m1 m2 n1 n2 : Char)
    (hys : ys = [] ∨ ∃ y1 y2 y3 y4, (isDigit y1 = true ∧ isDigit y2 = true ∧
      isDigit y3 = true ∧ isDigit y4 = true) ∧ ys = [y1, y2, y3, y4, '-'])
    (hm1 : isDigit m1 = true) (hm2 : isDigit m2 = true)
    (hn1 : isDigit n1 = true) (hn2 : isDigit n2 = true) :
    get_date today none = Except.ok none ∧
    get_date today (some (ys ++ [m1, m2, '-', n1, n2])) =
      get_date today (some [m1, m2, '-', n1, n2]) ∧
    (isValidDate today.year (mval m1 m2) (mval n1 n2) = true →
      dateLE ⟨today.year, mval m1 m2, mval n1 n2⟩ today = true →
      get_date today (some (ys ++ [m1, m2, '-', n1, n2])) =
        Except.ok (some ⟨today.year, mval m1 m2, mval n1 n2⟩)) ∧
    (isValidDate today.year (mval m1 m2) (mval n1 n2) = true →
      dateLE ⟨today.year, mval m1 m2, mval n1 n2⟩ today = false →
      isValidDate (today.year - 1) (mval m1 m2) (mval n1 n2) = true →
      get_date today (some (ys ++ [m1, m2, '-', n1, n2])) =
        Except.ok (some ⟨today.year - 1, mval m1 m2, mval n1 n2⟩)) ∧
    (∀ r, get_date today (some (ys ++ [m1, m2, '-', n1, n2])) = Except.ok (some r) →
      dateLE r today = true) := by
  have hdisc : get_date today (some (ys ++ [m1, m2, '-', n1, n2])) =
      get_date today (some [m1, m2, '-', n1, n2]) := by
    rcases hys with rfl | ⟨y1, y2, y3, y4, ⟨e1, e2, e3, e4⟩, rfl⟩
    · simp
    · exact get_date_year_discard e1 e2 e3 e4 hm1 hm2 hn1 hn2
  refine ⟨rfl, hdisc, ?_, ?_, ?_⟩
  · intro hv hle
    rw [hdisc, get_date_mmdd_eq hm1 hm2 hn1 hn2, if_pos hv, if_pos hle]
  · intro hv hle hv'
    rw [hdisc, get_date_mmdd_eq hm1 hm2 hn1 hn2, if_pos hv,
      if_neg (by rw [hle]; exact Bool.false_ne_true), if_pos hv']
  · intro r hr
    rw [hdisc, get_date_mmdd_eq hm1 hm2 hn1 hn2] at hr
    by_cases hv : isValidDate today.year (mval m1 m2) (mval n1 n2) = true
    · rw [if_pos hv] at hr
      by_cases hle : dateLE ⟨today.year, mval m1 m2, mval n1 n2⟩ today = true
      · rw [if_pos hle] at hr
        cases hr
        exact hle
      · rw [if_neg hle] at hr
        by_cases hv' : isValidDate (today.year - 1) (mval m1 m2) (mval n1 n2) = true
        · rw [if_pos hv'] at hr
          cases hr
          have hy := isValidDate_year_pos hv
          rw [dateLE]
          simp only [Bool.or_eq_true, decide_eq_true_eq]
          left
          omega
        · rw [if_neg hv'] at hr
          cases hr
    · rw [if_neg hv] at hr
      cases hr

/-- Closed instance of the amended C1: today = 2024-06-15 with fragments
`06-01` and `2024-06-01`. -/
theorem c1_amended_witness :
    get_date ⟨2024, 6, 15⟩ none = Except.ok none ∧
    get_date ⟨2024, 6, 15⟩ (some (("2024-".toList) ++ ("06-01".toList))) =
      get_date ⟨2024, 6, 15⟩ (some ("06-01".toList)) ∧
    get_date ⟨2024, 6, 15⟩ (some (("2024-".toList) ++ ("06-01".toList))) =
      Except.ok (some ⟨2024, 6, 1⟩) := by
  have h := c1_amended ⟨2024, 6, 15⟩ ("2024-".toList) '0' '6' '0' '1'
    (Or.inr ⟨'2', '0', '2', '4', by decide, rfl⟩) (by decide) (by decide) (by decide) (by decide)
  exact ⟨h.1, h.2.1, h.2.2.1 (by decide) (by decide)⟩

/-- C2 counterexample: with today = 2024-01-20 the month/day pair `02-29`
forms the valid calendar date 2024-02-29, yet `get_date` raises. -/
theorem c2_counterexample :
    isValidDate 2024 2 29 = true ∧
    get_date ⟨2024, 1, 20⟩ (some ("02-29".toList)) = Except.error PyError.valueError :=
  ⟨by decide, rfl⟩

/-- C2 amended: on a digit `MM-DD` fragment, `get_date` raises exactly when
the month/day pair is invalid in today's year, or the candidate is in the
future and the pair is invalid in the previous year; the error propagates
unswallowed through `parse_line`. -/
theorem c2_amended (today : PyDate) (m1 m2 n1 n2 : Char)
    (hm1 : isDigit m1 = true) (hm2 : isDigit m2 = true)
    (hn1 : isDigit n1 = true) (hn2 : isDigit n2 = true) :
    (get_date today (some [m1, m2, '-', n1, n2]) = Except.error PyError.valueError ↔
      (isValidDate today.year (mval m1 m2) (mval n1 n2) = false ∨
        (dateLE ⟨today.year, mval m1 m2, mval n1 n2⟩ today = false ∧
          isValidDate (today.year - 1) (mval m1 m2) (mval n1 n2) = false))) ∧
    (∀ line er, get_date today (findDateMarker glyphStart line) = Except.error er →
      parse_line today line = Except.error er) ∧
    (∀ line sd er, get_date today (findDateMarker glyphStart line) = Except.ok sd →
      get_date today (findDateMarker glyphDone line) = Except.error er →
      parse_line today line = Except.error er) := by
  refine ⟨?_, ?_, ?_⟩
  · rw [get_date_mmdd_eq hm1 hm2 hn1 hn2]
    split_ifs with h1 h2 h3 <;> simp_all
  · intro line er h
    rw [parse_line, h]
  · intro line sd er h1 h2
    rw [parse_line, h1, h2]

/-- Closed instance of the amended C2: `02-29` raises at today = 2024-01-20
(future candidate, 2023-02-29 invalid), and `06-01` does not raise at
today = 2024-06-15. -/
theorem c2_amended_witness :
    (get_date ⟨2024, 1, 20⟩ (some ("02-29".toList)) = Except.error PyError.valueError ↔
      (isValidDate 2024 2 29 = false ∨
        (dateLE ⟨2024, 2, 29⟩ ⟨2024, 1, 20⟩ = false ∧ isValidDate 2023 2 29 = false))) ∧
    parse_line ⟨2024, 1, 20⟩ ("- [x] a 🛫 02-29".toList) = Except.error PyError.valueError := by
  have h := c2_amended ⟨2024, 1, 20⟩ '0' '2' '2' '9' (by decide) (by decide) (by decide) (by decide)
  refine ⟨h.1, ?_⟩
  exact h.2.1 ("- [x] a 🛫 02-29".toList) PyError.valueError rfl

theorem isTail_decompose {xs : List Char} (h : isTail xs = true) :
    ∃ t nl, (nl = [] ∨ nl = ['\n']) ∧ xs = t ++ nl := by
  induction xs with
  | nil => exact ⟨[], [], Or.inl rfl, rfl⟩
  | cons c rest ih =>
    rw [isTail] at h
    by_cases hc : c = '\n'
    · subst hc
      rw [if_pos rfl] at h
      have : rest = [] := by
        cases rest with
        | nil => rfl
        | cons d ds => simp at h
      subst this
      exact ⟨[], ['\n'], Or.inr rfl, rfl⟩
    · rw [if_neg hc] at h
      obtain ⟨t, nl, hnl, rfl⟩ := ih h
      exact ⟨c :: t, nl, hnl, rfl⟩

theorem checklistBody_decompose {xs : List Char} (h : checklistBody xs = true) :
    ∃ ch rest2, ch ≠ '\n' ∧ isTail rest2 = true ∧
      xs = ['-', ' ', '['] ++ [ch] ++ [']', ' '] ++ rest2 := by
  rw [checklistBody] at h
  cases h1 : chopLit ['-', ' ', '['] xs with
  | none => rw [h1] at h; cases h
  | some cs1 =>
    rw [h1] at h
    cases cs1 with
    | nil => cases h
    | cons ch cs2 =>
      dsimp only at h
      by_cases hch : ch = '\n'
      · rw [if_pos hch] at h; cases h
      · rw [if_neg hch] at h
        cases h2 : chopLit [']', ' '] cs2 with
        | none => rw [h2] at h; cases h
        | some cs3 =>
          rw [h2] at h
          rw [chopLit_eq_some] at h1 h2
          subst h2
          subst h1
          exact ⟨ch, cs3, hch, h, rfl⟩

theorem dropLast_append_of_ne_nil {xs ys : List Char} (h : ys ≠ []) :
    (xs ++ ys).dropLast = xs ++ ys.dropLast := by
  induction xs with
  | nil => rfl
  | cons c rest ih =>
    cases hr : rest ++ ys with
    | nil =>
      exact absurd (List.append_eq_nil.mp hr).2 h
    | cons d ds =>
      rw [List.cons_append, hr, List.dropLast_cons₂, ← hr, ih, List.cons_append]

theorem mem_dropLast_append {xs : List Char} {c : Char} {ys : List Char} (h : ys ≠ []) :
    c ∈ (xs ++ c :: ys).dropLast := by
  rw [dropLast_append_of_ne_nil (by simp)]
  apply List.mem_append_right
  cases ys with
  | nil => exact absurd rfl h
  | cons d ds => rw [List.dropLast_cons₂]; exact List.mem_cons_self c _

theorem isTail_of_no_interior {xs : List Char} (h : '\n' ∉ xs.dropLast) :
    isTail xs = true := by
  induction xs with
  | nil => rfl
  | cons c rest ih =>
    cases rest with
    | nil =>
      rw [isTail]
      by_cases hc : c = '\n'
      · rw [if_pos hc]; rfl
      · rw [if_neg hc]; rfl
    | cons d ds =>
      rw [List.dropLast_cons₂] at h
      simp only [List.mem_cons, not_or] at h
      rw [isTail, if_neg (fun he => h.1 he.symm)]
      exact ih (by simpa using h.2)

/-- C3 helper: the regex filter of `get_task_lines` agrees with the spec
grammar on every line without an interior newline. -/
theorem isChecklistLine_iff_grammar {cs : List Char} (h : NoInteriorNewline cs) :
    isChecklistLine cs = true ↔ ChecklistGrammar cs := by
  constructor
  · intro hl
    cases cs with
    | nil => cases hl
    | cons c rest =>
      rw [isChecklistLine] at hl
      by_cases hc : c = '\t'
      · rw [if_pos hc] at hl
        rcases Bool.or_eq_true_iff.mp hl with hb | hb
        · obtain ⟨ch, rest2, hch, ht, hre⟩ := checklistBody_decompose hb
          obtain ⟨t, nl, hnl, rfl⟩ := isTail_decompose ht
          subst hc
          exact ⟨['\t'], ch, t, nl, Or.inr rfl, hnl, by rw [hre]; simp⟩
        · subst hc
          obtain ⟨ch, rest2, hch, ht, hre⟩ := checklistBody_decompose hb
          simp at hre
      · rw [if_neg hc] at hl
        obtain ⟨ch, rest2, hch, ht, hre⟩ := checklistBody_decompose hl
        obtain ⟨t, nl, hnl, rfl⟩ := isTail_decompose ht
        exact ⟨[], ch, t, nl, Or.inl rfl, hnl, by rw [hre]; simp⟩
  · rintro ⟨ind, ch, t, nl, hind, hnl, rfl⟩
    rw [NoInteriorNewline] at h
    have hch : ch ≠ '\n' := by
      intro he
      subst he
      apply h
      have hshape : ind ++ ['-', ' ', '['] ++ ['\n'] ++ [']', ' '] ++ t ++ nl =
          (ind ++ ['-', ' ', '[']) ++ '\n' :: ([']', ' '] ++ t ++ nl) := by
        simp
      rw [hshape]
      exact mem_dropLast_append (by simp)
    have htail : isTail (t ++ nl) = true := by
      rcases he : t ++ nl with _ | ⟨d, ds⟩
      · rfl
      · apply isTail_of_no_interior
        intro hmem
        apply h
        have hshape : ind ++ ['-', ' ', '['] ++ [ch] ++ [']', ' '] ++ t ++ nl =
            (ind ++ ['-', ' ', '['] ++ [ch] ++ [']', ' ']) ++ (t ++ nl) := by
          simp
        rw [hshape, dropLast_append_of_ne_nil (by rw [he]; simp)]
        rw [← he] at hmem
        exact List.mem_append_right _ hmem
    have hbody : checklistBody ('-' :: ' ' :: '[' :: ch :: ']' :: ' ' :: (t ++ nl)) = true := by
      rw [checklistBody]
      rw [show chopLit ['-', ' ', '['] ('-' :: ' ' :: '[' :: ch :: ']' :: ' ' :: (t ++ nl)) =
        some (ch :: ']' :: ' ' :: (t ++ nl)) from by simp [chopLit]]
      dsimp only
      rw [if_neg hch]
      rw [show chopLit [']', ' '] (']' :: ' ' :: (t ++ nl)) = some (t ++ nl) from by
        simp [chopLit]]
      exact htail
    rcases hind with rfl | rfl
    · rw [show ([] : List Char) ++ ['-', ' ', '['] ++ [ch] ++ [']', ' '] ++ t ++ nl =
        '-' :: ' ' :: '[' :: ch :: ']' :: ' ' :: (t ++ nl) from by simp]
      rw [isChecklistLine, if_neg (by decide : ¬ ('-' : Char) = '\t')]
      exact hbody
    · rw [show ['\t'] ++ ['-', ' ', '['] ++ [ch] ++ [']', ' '] ++ t ++ nl =
        '\t' :: ('-' :: ' ' :: '[' :: ch :: ']' :: ' ' :: (t ++ nl)) from by simp]
      rw [isChecklistLine, if_pos rfl, hbody]
      rfl

/-- C3: a raw note line is kept by the classifier iff it matches the
checklist grammar, and `get_task_lines` silently drops every other line,
tag-stripping and right-trimming the kept ones. -/
theorem c3_filter_grammar :
    (∀ cs, NoInteriorNewline cs → (isChecklistLine cs = true ↔ ChecklistGrammar cs)) ∧
    (∀ lines, get_task_lines lines = (lines.filter isChecklistLine).map lineTransform) :=
  ⟨fun _ h => isChecklistLine_iff_grammar h, fun _ => rfl⟩

/-- Closed instance of C3 at a kept line and a dropped line. -/
theorem c3_filter_grammar_witness :
    (isChecklistLine ("- [x] a\n".toList) = true ↔ ChecklistGrammar ("- [x] a\n".toList)) ∧
    isChecklistLine ("- [x] a\n".toList) = true ∧
    get_task_lines [("- [x] a\n".toList), ("plain text".toList)] = [("- [x] a".toList)] :=
  ⟨c3_filter_grammar.1 ("- [x] a\n".toList) (by decide), rfl, rfl⟩

theorem findStateChar_tab_head {c : Char} (h : c ≠ '\n') (xs : List Char) :
    findStateChar ('\t' :: '-' :: ' ' :: '[' :: c :: ']' :: ' ' :: xs) = some c := by
  rw [findStateChar]
  have hsm : stateMatch ('\t' :: '-' :: ' ' :: '[' :: c :: ']' :: ' ' :: xs) = some (c, xs) := by
    rw [stateMatch, if_pos rfl]
    rw [show stateCore ('-' :: ' ' :: '[' :: c :: ']' :: ' ' :: xs) = some (c, xs) from by
      rw [stateCore]
      simp [chopLit, h]]
  rw [hsm]

/-- C4: on a checklist line the state character dispatches exactly as
space, slash, x, dash to the four states; any other character raises an
exception whose message carries the character, and no task is produced. -/
theorem c4_state_mapping (today : PyDate) (ind rest : List Char) (c : Char)
    (hind : ind = [] ∨ ind = ['\t']) (hc : c ≠ '\n') (sd dd : Option PyDate)
    (hs : get_date today (findDateMarker glyphStart
      (ind ++ '-' :: ' ' :: '[' :: c :: ']' :: ' ' :: rest)) = Except.ok sd)
    (hd : get_date today (findDateMarker glyphDone
      (ind ++ '-' :: ' ' :: '[' :: c :: ']' :: ' ' :: rest)) = Except.ok dd) :
    (c = ' ' → parse_line today (ind ++ '-' :: ' ' :: '[' :: c :: ']' :: ' ' :: rest) =
      Except.ok (⟨pyStrip (subMarkers (ind ++ '-' :: ' ' :: '[' :: c :: ']' :: ' ' :: rest)),
        State.TODO, sd, dd, []⟩,
        count_tabs (ind ++ '-' :: ' ' :: '[' :: c :: ']' :: ' ' :: rest) == 0)) ∧
    (c = '/' → parse_line today (ind ++ '-' :: ' ' :: '[' :: c :: ']' :: ' ' :: rest) =
      Except.ok (⟨pyStrip (subMarkers (ind ++ '-' :: ' ' :: '[' :: c :: ']' :: ' ' :: rest)),
        State.ONGOING, sd, dd, []⟩,
        count_tabs (ind ++ '-' :: ' ' :: '[' :: c :: ']' :: ' ' :: rest) == 0)) ∧
    (c = 'x' → parse_line today (ind ++ '-' :: ' ' :: '[' :: c :: ']' :: ' ' :: rest) =
      Except.ok (⟨pyStrip (subMarkers (ind ++ '-' :: ' ' :: '[' :: c :: ']' :: ' ' :: rest)),
        State.DONE, sd, dd, []⟩,
        count_tabs (ind ++ '-' :: ' ' :: '[' :: c :: ']' :: ' ' :: rest) == 0)) ∧
    (c = '-' → parse_line today (ind ++ '-' :: ' ' :: '[' :: c :: ']' :: ' ' :: rest) =
      Except.ok (⟨pyStrip (subMarkers (ind ++ '-' :: ' ' :: '[' :: c :: ']' :: ' ' :: rest)),
        State.CANCELLED, sd, dd, []⟩,
        count_tabs (ind ++ '-' :: ' ' :: '[' :: c :: ']' :: ' ' :: rest) == 0)) ∧
    (c ≠ ' ' → c ≠ '/' → c ≠ 'x' → c ≠ '-' →
      parse_line today (ind ++ '-' :: ' ' :: '[' :: c :: ']' :: ' ' :: rest) =
        Except.error (PyError.exception (stateErrMsg c)) ∧ c ∈ stateErrMsg c) := by
  have hfs : findStateChar (ind ++ '-' :: ' ' :: '[' :: c :: ']' :: ' ' :: rest) = some c := by
    rcases hind with rfl | rfl
    · exact findStateChar_head hc rest
    · exact findStateChar_tab_head hc rest
  refine ⟨?_, ?_, ?_, ?_, ?_⟩
  · rintro rfl
    rw [parse_line, hs, hd, hfs]
    rfl
  · rintro rfl
    rw [parse_line, hs, hd, hfs]
    rfl
  · rintro rfl
    rw [parse_line, hs, hd, hfs]
    rfl
  · rintro rfl
    rw [parse_line, hs, hd, hfs]
    rfl
  · intro h1 h2 h3 h4
    have hcs : charToState c = Except.error (PyError.exception (stateErrMsg c)) := by
      rw [charToState, if_neg h1, if_neg h2, if_neg h3, if_neg h4]
    constructor
    · rw [parse_line, hs, hd, hfs]
      dsimp only
      rw [hcs]
    · rw [stateErrMsg]
      exact List.mem_append_right _ (List.mem_cons_self c [])

/-- Closed instance of C4: parsing `"- [?] X"` raises the invalid-state
exception carrying the question mark. -/
theorem c4_state_mapping_witness :
    parse_line ⟨2024, 1, 1⟩ ("- [?] X".toList) =
      Except.error (PyError.exception (stateErrMsg '?')) ∧ '?' ∈ stateErrMsg '?' :=
  (c4_state_mapping ⟨2024, 1, 1⟩ [] ("X".toList) '?' (Or.inl rfl) (by decide)
    none none rfl rfl).2.2.2.2 (by decide) (by decide) (by decide) (by decide)

theorem appendChildToLast_snoc (pre : List Task) (t task : Task) :
    appendChildToLast (pre ++ [t]) task =
      some (pre ++ [{ t with children := t.children ++ [task] }]) := by
  induction pre with
  | nil => rfl
  | cons p ps ih =>
    obtain ⟨x, xs, hxx⟩ : ∃ x xs, ps ++ [t] = x :: xs := by
      cases ps <;> exact ⟨_, _, rfl⟩
    rw [List.cons_append, show appendChildToLast (p :: (ps ++ [t])) task =
      (appendChildToLast (ps ++ [t]) task).map (fun l => p :: l) from by rw [hxx]; rfl]
    rw [ih]
    rfl

/-- C6: the hierarchy builder consumes lines in order, a depth-0 line starts
a new parent appended to the output, a deeper line is appended at the end of
the current parent's children; on the four-line example this yields two
parents, the first owning A1 then A2, the second owning nothing. -/
theorem c6_hierarchy_order :
    (∀ (today : PyDate) (acc : List Task) (line : List Char) (rest : List (List Char)) (task : Task),
      parse_line today line = Except.ok (task, true) →
      format_tasksAux today acc (line :: rest) = format_tasksAux today (acc ++ [task]) rest) ∧
    (∀ (today : PyDate) (pre : List Task) (t : Task) (line : List Char)
        (rest : List (List Char)) (task : Task),
      parse_line today line = Except.ok (task, false) →
      format_tasksAux today (pre ++ [t]) (line :: rest) =
        format_tasksAux today (pre ++ [{ t with children := t.children ++ [task] }]) rest) ∧
    (∀ today : PyDate,
      format_tasks today [("- [ ] A".toList), ("\t- [x] A1".toList),
          ("\t- [ ] A2".toList), ("- [/] B".toList)] =
        Except.ok [⟨"A".toList, State.TODO, none, none,
            [⟨"A1".toList, State.DONE, none, none, []⟩,
             ⟨"A2".toList, State.TODO, none, none, []⟩]⟩,
          ⟨"B".toList, State.ONGOING, none, none, []⟩]) := by
  refine ⟨?_, ?_, fun today => rfl⟩
  · intro today acc line rest task h
    rw [format_tasksAux, h]
    rfl
  · intro today pre t line rest task h
    rw [format_tasksAux, h]
    dsimp only
    rw [appendChildToLast_snoc]
    rfl

/-- Closed instance of C6: the parent step at `"- [ ] A"`. -/
theorem c6_hierarchy_order_witness :
    format_tasksAux ⟨2024, 1, 1⟩ [] [("- [ ] A".toList)] =
      format_tasksAux ⟨2024, 1, 1⟩ ([] ++ [⟨"A".toList, State.TODO, none, none, []⟩]) [] :=
  c6_hierarchy_order.1 ⟨2024, 1, 1⟩ [] ("- [ ] A".toList) []
    ⟨"A".toList, State.TODO, none, none, []⟩ rfl

/-- C7: an indented (child) checklist line with no parent seen yet makes
`format_tasks` raise, and no task list is produced. -/
theorem c7_child_first_error (today : PyDate) (line : List Char) (rest : List (List Char))
    (task : Task) (h : parse_line today line = Except.ok (task, false)) :
    format_tasks today (line :: rest) = Except.error PyError.indexError := by
  rw [format_tasks, format_tasksAux, h]
  rfl

/-- Closed instance of C7 at the child line `"\t- [x] A1"`. -/
theorem c7_child_first_error_witness :
    format_tasks ⟨2024, 1, 1⟩ [("\t- [x] A1".toList)] = Except.error PyError.indexError :=
  c7_child_first_error ⟨2024, 1, 1⟩ ("\t- [x] A1".toList) []
    ⟨"A1".toList, State.DONE, none, none, []⟩ rfl

/-- C8: a CANCELLED child renders with every non-empty cell struck through;
otherwise a child whose start or done date is today renders bold; otherwise
the row is unstyled; cancellation takes precedence over the today test, so a
CANCELLED child starting today is struck through, never bold. -/
theorem c8_row_styling (ss : State → List Char) (today : PyDate) (sub : Task) :
    (sub.state = State.CANCELLED →
      writeRow ss today sub = (rowData ss sub).map strikeCell) ∧
    (sub.state ≠ State.CANCELLED →
      (sub.start_date = some today ∨ sub.done_date = some today) →
      writeRow ss today sub = (rowData ss sub).map boldCell) ∧
    (sub.state ≠ State.CANCELLED → sub.start_date ≠ some today →
      sub.done_date ≠ some today → writeRow ss today sub = rowData ss sub) ∧
    (sub.state = State.CANCELLED → sub.start_date = some today →
      writeRow ss today sub = (rowData ss sub).map strikeCell) ∧
    (∀ t : Task, write_table_rows ss today t = t.children.map (writeRow ss today)) := by
  refine ⟨?_, ?_, ?_, ?_, fun _ => rfl⟩
  · intro h
    simp [writeRow, h]
  · intro h1 h2
    simp [writeRow, h1, h2]
  · intro h1 h2 h3
    simp [writeRow, h1, h2, h3]
  · intro h _
    simp [writeRow, h]

/-- Closed instance of C8: a CANCELLED child with start date equal to today
is struck through, not bold. -/
theorem c8_row_styling_witness :
    writeRow (fun _ => "s".toList) ⟨2024, 6, 1⟩
        ⟨"t".toList, State.CANCELLED, some ⟨2024, 6, 1⟩, none, []⟩ =
      (rowData (fun _ => "s".toList)
        ⟨"t".toList, State.CANCELLED, some ⟨2024, 6, 1⟩, none, []⟩).map strikeCell :=
  (c8_row_styling (fun _ => "s".toList) ⟨2024, 6, 1⟩
    ⟨"t".toList, State.CANCELLED, some ⟨2024, 6, 1⟩, none, []⟩).2.2.2.1 rfl rfl

theorem takeWhile_all {p : Char → Bool} {xs : List Char} (h : ∀ c ∈ xs, p c = true) :
    xs.takeWhile p = xs := by
  induction xs with
  | nil => rfl
  | cons c rest ih =>
    rw [List.takeWhile_cons, h c (List.mem_cons_self c rest)]
    simp only [if_true]
    rw [ih (fun d hd => h d (List.mem_cons_of_mem c hd))]

theorem dropWhile_all {p : Char → Bool} {xs : List Char} (h : ∀ c ∈ xs, p c = true) :
    xs.dropWhile p = [] := by
  induction xs with
  | nil => rfl
  | cons c rest ih =>
    rw [List.dropWhile_cons, h c (List.mem_cons_self c rest)]
    simp only [if_true]
    exact ih (fun d hd => h d (List.mem_cons_of_mem c hd))

theorem parse_tag_none {text : List Char} (h : '#' ∉ text) : parse_tag text = none := by
  induction text with
  | nil => rfl
  | cons c rest ih =>
    simp only [List.mem_cons, not_or] at h
    rw [parse_tag, if_neg (fun he => h.1 he.symm)]
    exact ih h.2

/-- C9 counterexample: on a line containing no `#` at all — a line with no
tag component — `parse_tag` returns `None`, not a pair of empty strings. -/
theorem c9_counterexample :
    parse_tag ("hoge".toList) = none ∧ parse_tag ("hoge".toList) ≠ some ([], []) :=
  ⟨rfl, by decide⟩

/-- C9 amended: `parse_tag` searches for `#<parent>` optionally followed by
`/<child>`, with both components optional; when a `#` is present with no tag
text the result is a pair of empty strings, but when no `#` occurs anywhere
in the line the result is `None`. -/
theorem c9_amended :
    (∀ text, '#' ∉ text → parse_tag text = none) ∧
    (∀ pre, '#' ∉ pre → parse_tag (pre ++ ['#']) = some ([], [])) ∧
    (∀ pre ptag rest, '#' ∉ pre → (∀ x ∈ ptag, safeTagChar x) →
      (rest = [] ∨ ∃ r rs, rest = r :: rs ∧ isSpace r = true) →
      parse_tag (pre ++ '#' :: (ptag ++ rest)) = some (ptag, [])) ∧
    (∀ pre ptag ctag rest, '#' ∉ pre → (∀ x ∈ ptag, safeTagChar x) →
      (∀ x ∈ ctag, isSpace x = false) →
      (rest = [] ∨ ∃ r rs, rest = r :: rs ∧ isSpace r = true) →
      parse_tag (pre ++ '#' :: (ptag ++ '/' :: (ctag ++ rest))) = some (ptag, ctag)) := by
  have hne : ∀ {pre : List Char}, '#' ∉ pre → ∀ c ∈ pre, c ≠ '#' :=
    fun hp c hc he => hp (he ▸ hc)
  have hkeep : ∀ {ptag : List Char}, (∀ x ∈ ptag, safeTagChar x) →
      ∀ x ∈ ptag, (fun ch => !(isSpace ch) && !(ch = '/')) x = true := by
    intro ptag hp x hx
    have := hp x hx
    simp [this.1, this.2]
  refine ⟨fun text h => parse_tag_none h, ?_, ?_, ?_⟩
  · intro pre hp
    rw [parse_tag_append (hne hp), parse_tag_hash]
    rfl
  · intro pre ptag rest hp hpt hrest
    rw [parse_tag_append (hne hp), parse_tag_hash, parseTagGroups]
    rcases hrest with rfl | ⟨r, rs, rfl, hr⟩
    · rw [List.append_nil, takeWhile_all (hkeep hpt), dropWhile_all (hkeep hpt)]
      rfl
    · have hrk : (fun ch => !(isSpace ch) && !(ch = '/')) r = false := by simp [hr]
      rw [takeWhile_append_all (hkeep hpt) hrk, dropWhile_append_stop (hkeep hpt) hrk]
      dsimp only
      rw [if_neg (ne_of_nonspace (by decide : isSpace '/' = false) hr).symm]
      rw [show List.takeWhile (fun ch => !(isSpace ch)) (r :: rs) = [] from by
        rw [List.takeWhile_cons, if_neg (by simp [hr])]]
  · intro pre ptag ctag rest hp hpt hct hrest
    rw [parse_tag_append (hne hp), parse_tag_hash, parseTagGroups]
    have hsl : (fun ch => !(isSpace ch) && !(ch = '/')) '/' = false := by decide
    rw [takeWhile_append_all (hkeep hpt) hsl, dropWhile_append_stop (hkeep hpt) hsl]
    dsimp only
    rw [if_pos rfl]
    rcases hrest with rfl | ⟨r, rs, rfl, hr⟩
    · rw [List.append_nil, takeWhile_all (fun x hx => by simp [hct x hx])]
    · rw [takeWhile_append_all (fun x hx => by simp [hct x hx]) (by simp [hr])]

/-- Closed instance of the amended C9. -/
theorem c9_amended_witness :
    parse_tag ("hoge".toList) = none ∧
    parse_tag (("hoge ".toList) ++ ['#']) = some ([], []) ∧
    parse_tag (("hoge ".toList) ++ '#' :: (("skp".toList) ++ [])) = some ("skp".toList, []) ∧
    parse_tag (("a ".toList) ++ '#' :: (("x".toList) ++ '/' :: (("y".toList) ++ (' ' :: "z".toList)))) =
      some ("x".toList, "y".toList) := by
  refine ⟨c9_amended.1 ("hoge".toList) (by decide),
    c9_amended.2.1 ("hoge ".toList) (by decide),
    c9_amended.2.2.1 ("hoge ".toList) ("skp".toList) [] (by decide) (by decide) (Or.inl rfl),
    c9_amended.2.2.2 ("a ".toList) ("x".toList) ("y".toList) (' ' :: "z".toList)
      (by decide) (by decide) (by decide) (Or.inr ⟨' ', "z".toList, rfl, by decide⟩)⟩

theorem format_tasksRunAux_spec (today : PyDate) :
    ∀ (lines : List (List Char)) (acc : List Task),
      (format_tasksRunAux today acc lines).1 = format_tasksAux today acc lines ∧
      (∀ out, (format_tasksRunAux today acc lines).1 = Except.ok out →
        (format_tasksRunAux today acc lines).2 = []) := by
  intro lines
  induction lines with
  | nil => exact fun acc => ⟨rfl, fun _ _ => rfl⟩
  | cons l rest ih =>
    intro acc
    rw [format_tasksRunAux, format_tasksAux]
    cases hp : parse_line today l with
    | error e => exact ⟨rfl, fun out hout => by cases hout⟩
    | ok p =>
      obtain ⟨task, is_parent⟩ := p
      dsimp only
      cases is_parent with
      | true =>
        simp only [if_true]
        exact ih (acc ++ [task])
      | false =>
        simp only [Bool.false_eq_true, if_false]
        cases ha : appendChildToLast acc task with
        | some acc2 => exact ih acc2
        | none => exact ⟨rfl, fun out hout => by cases hout⟩

/-- C10: running `format_tasks` on the mutable `task_lines` list leaves the
caller's list empty whenever the call returns normally, and the returned
tasks are the pure function of the pre-call contents. -/
theorem c10_consumes_lines (today : PyDate) (lines : List (List Char)) :
    (format_tasks_run today lines).1 = format_tasks today lines ∧
    (∀ out, (format_tasks_run today lines).1 = Except.ok out →
      (format_tasks_run today lines).2 = []) :=
  format_tasksRunAux_spec today lines []

/-- Closed instance of C10 at a one-line list. -/
theorem c10_consumes_lines_witness :
    (format_tasks_run ⟨2024, 1, 1⟩ [("- [ ] A".toList)]).1 =
      format_tasks ⟨2024, 1, 1⟩ [("- [ ] A".toList)] ∧
    (format_tasks_run ⟨2024, 1, 1⟩ [("- [ ] A".toList)]).2 = [] :=
  ⟨(c10_consumes_lines ⟨2024, 1, 1⟩ [("- [ ] A".toList)]).1,
    (c10_consumes_lines ⟨2024, 1, 1⟩ [("- [ ] A".toList)]).2
      [⟨"A".toList, State.TODO, none, none, []⟩] rfl⟩

/-- Closed instance of C5: the line
`- [x] Report #work 🛫 06-01 ✅ 06-02` at today = 2024-06-15. -/
theorem c5_roundtrip_witness :
    parse_line ⟨2024, 6, 15⟩ (lineTransform (mkSyntheticLine 'x' ("Report".toList)
        ("work".toList) '0' '6' '0' '1' '0' '6' '0' '2')) =
      Except.ok (⟨"Report".toList, State.DONE,
        some (resolvePast ⟨2024, 6, 15⟩ (mval '0' '6') (mval '0' '1')),
        some (resolvePast ⟨2024, 6, 15⟩ (mval '0' '6') (mval '0' '2')), []⟩, true) ∧
    parse_tag (mkSyntheticLine 'x' ("Report".toList) ("work".toList)
        '0' '6' '0' '1' '0' '6' '0' '2') = some ("work".toList, []) := by
  have h := c5_roundtrip ⟨2024, 6, 15⟩ 'x' State.DONE ("Report".toList) ("work".toList)
    '0' '6' '0' '1' '0' '6' '0' '2' (by decide) (by decide) (by decide) (by decide)
    (by decide) (by decide) (by decide) (by decide) (by decide) (by decide) (by decide)
    (by decide) (by decide) (by decide) (by decide)
  exact ⟨h.2.1, h.2.2.1⟩

end Report
